import Mathlib

/-!
# Orion-Belt: authentication chain and session recorder

A shallow embedding of `pkg/api/middelware.go` and `pkg/recording/recorder.go`.

Conventions of the embedding

* Go `error` values are their message strings: a `(v, err)` result is `Except String _`, a
  lone `error` result is `Option String` with `none` for nil, and a store lookup is an
  `Option` with `none` for `err != nil`.
* `c.Next()`, `c.Abort()` and `c.JSON(...)` are recorded on the context; goroutines started
  with `go` are recorded on the server state and not run.
* Receivers with mutable state (`*APIServer`, `*gin.Context`, `*Recorder`, the file system)
  are passed in and returned explicitly.
* `time.Now()` is an explicit argument of the function that reads the clock.
* A `context.Context` is the datum `Ctx`, which records what it was derived from; what is
  modelled of a goroutine is the context and the call it captured and what its body does with
  the call's result, not when it runs.
* Byte slices are `List UInt8`; Go strings written to a file are their UTF-8 bytes.
-/

set_option autoImplicit false

namespace OrionBelt

/-! ## Part I. Definitions -/

/-- One byte of a `[]byte`. -/
abbrev Byte := UInt8

/-- An instant of `time.Time`, in nanoseconds on the time line. -/
abbrev Time := Int

/-- UTF-8 encoding of one code point, as Go stores it in a `string`. -/
def utf8EncodeRune (c : Char) : List Byte :=
  let v := c.toNat
  if v < 0x80 then [UInt8.ofNat v]
  else if v < 0x800 then [UInt8.ofNat (0xC0 + v / 0x40), UInt8.ofNat (0x80 + v % 0x40)]
  else if v < 0x10000 then
    [UInt8.ofNat (0xE0 + v / 0x1000), UInt8.ofNat (0x80 + v / 0x40 % 0x40),
     UInt8.ofNat (0x80 + v % 0x40)]
  else
    [UInt8.ofNat (0xF0 + v / 0x40000), UInt8.ofNat (0x80 + v / 0x1000 % 0x40),
     UInt8.ofNat (0x80 + v / 0x40 % 0x40), UInt8.ofNat (0x80 + v % 0x40)]

/-- The conversion `[]byte(s)` of a Go string. -/
def bytesOf (s : String) : List Byte :=
  s.data.flatMap utf8EncodeRune

deriving instance DecidableEq for Except

/-- Severity of a `common.Logger` call. -/
inductive Level where
  | debug
  | info
  | warn
  | error
  deriving DecidableEq, Repr

/-- One formatted line handed to the logger. -/
structure LogEntry where
  level : Level
  msg : String
  deriving DecidableEq, Repr

namespace Api

/-! ### `pkg/common` records and the credential store -/

/-- Modelled from the spec: `common.User`, of which the middleware reads `ID`, `Username`
and `IsAdmin`. -/
structure User where
  ID : String
  Username : String
  IsAdmin : Bool
  deriving DecidableEq, Repr

/-- Modelled from the spec: the API key record (`contentHash`, `ownerUserID`, optional
`revokedAt`, optional `expiresAt`), with the `ID` and `Name` the middleware reads. -/
structure APIKey where
  ID : String
  UserID : String
  Name : String
  KeyHash : String
  RevokedAt : Option Time
  ExpiresAt : Option Time
  deriving DecidableEq, Repr

/-- Modelled from the spec: the HTTP session record (`tokenHash`, `ownerUserID`,
`expiresAt`), with the `ID` the middleware reads. -/
structure HTTPSession where
  ID : String
  UserID : String
  TokenHash : String
  ExpiresAt : Time
  deriving DecidableEq, Repr

/-- Modelled from the spec: the CredentialStore behind `s.store` (lookup API key by hash,
lookup session by token hash, delete session by id, lookup user by id). A lookup that finds
nothing is the `err != nil` case. -/
structure Store where
  apiKeys : List APIKey
  sessions : List HTTPSession
  users : List User
  deriving DecidableEq, Repr

/-- Modelled from the spec: lookup API key by hash; `none` is `err != nil`. -/
def Store.GetAPIKeyByHash (st : Store) (keyHash : String) : Option APIKey :=
  st.apiKeys.find? (fun k => k.KeyHash == keyHash)

/-- Modelled from the spec: lookup session by token hash; `none` is `err != nil`. -/
def Store.GetHTTPSessionByToken (st : Store) (tokenHash : String) : Option HTTPSession :=
  st.sessions.find? (fun x => x.TokenHash == tokenHash)

/-- Modelled from the spec: lookup user by id; `none` is `err != nil`. -/
def Store.GetUser (st : Store) (id : String) : Option User :=
  st.users.find? (fun u => u.ID == id)

/-- Modelled from the spec: delete session by id. -/
def Store.DeleteHTTPSession (st : Store) (id : String) : Store :=
  { st with sessions := st.sessions.filter (fun x => !(x.ID == id)) }

/-- A `context.Context`: the background context, the context of an inbound request, or a
context derived from another one (`WithCancel`, `WithTimeout`, ...). -/
inductive Ctx where
  | background
  | request (id : Nat)
  | derived (parent : Ctx) (tag : Nat)
  deriving DecidableEq, Repr

/-- Whether cancelling `root` cancels `c`: `c` is `root` or is derived from it. -/
def Ctx.cancelledWith : Ctx → Ctx → Bool
  | .background, root => root == .background
  | .request id, root => root == .request id
  | .derived parent tag, root => root == .derived parent tag || parent.cancelledWith root

/-- A call on the `s.store` interface, with the arguments that identify the record. -/
inductive StoreCall where
  | GetAPIKeyByHash (keyHash : String)
  | UpdateAPIKeyLastUsed (id : String)
  | GetHTTPSessionByToken (tokenHash : String)
  | UpdateHTTPSessionLastSeen (id : String)
  | DeleteHTTPSession (id : String)
  | GetUser (id : String)
  deriving DecidableEq, Repr

/-- A goroutine started with `go func() { _ = s.store.Update...(ctx, id, time.Now()) }()`:
the context it captured and the store call of its body. -/
structure Goroutine where
  ctx : Ctx
  call : StoreCall
  deriving DecidableEq, Repr

/-- The state behind `*APIServer`: the store, the store calls made on the calling goroutine
(oldest first), the goroutines started with `go` (oldest first; each body is one store call,
which reads the clock only when it runs), and the lines handed to `s.logger`. -/
structure APIServer where
  store : Store
  calls : List StoreCall
  spawned : List Goroutine
  logs : List LogEntry
  deriving DecidableEq, Repr

/-- Record a synchronous store call. -/
def APIServer.call (s : APIServer) (k : StoreCall) : APIServer :=
  { s with calls := s.calls ++ [k] }

/-- The statement `go func() { ... }()`, whose body passes `ctx` to the store call `k`. -/
def APIServer.go (s : APIServer) (ctx : Ctx) (k : StoreCall) : APIServer :=
  { s with spawned := s.spawned ++ [⟨ctx, k⟩] }

/-- The body of a started goroutine, `_ = s.store.Update...(ctx, id, time.Now())`, once it
runs: the store call is made and what it returns, `err`, is assigned to the blank
identifier. -/
def Goroutine.run (g : Goroutine) (_err : Option String) (s : APIServer) : APIServer :=
  s.call g.call

/-- The call `s.logger.Debug(...)`, already formatted. -/
def APIServer.Debug (s : APIServer) (msg : String) : APIServer :=
  { s with logs := s.logs ++ [⟨Level.debug, msg⟩] }

/-- The call `s.logger.Warn(...)`, already formatted. -/
def APIServer.Warn (s : APIServer) (msg : String) : APIServer :=
  { s with logs := s.logs ++ [⟨Level.warn, msg⟩] }

/-! ### Hashing -/

/-- The function `sha256.Sum256` of the Go standard library, taken as a parameter. -/
abbrev Digest := List Byte → List Byte

/-- One lower-case hexadecimal digit. -/
def hexDigit (n : Nat) : Char :=
  "0123456789abcdef".data.getD n '0'

/-- The function `hex.EncodeToString`. -/
def hexEncodeToString (bs : List Byte) : String :=
  String.mk (bs.flatMap (fun b => [hexDigit (b.toNat / 16), hexDigit (b.toNat % 16)]))

/-- `hashAPIKey` creates a SHA256 hash of an API key. -/
def hashAPIKey (sum256 : Digest) (key : String) : String :=
  let hash := sum256 (bytesOf key)
  hexEncodeToString hash

/-- `hashSessionToken` creates a SHA256 hash of a session token. -/
def hashSessionToken (sum256 : Digest) (token : String) : String :=
  let hash := sum256 (bytesOf token)
  hexEncodeToString hash

/-! ### Validators -/

/-- The test `t != nil && now.After(*t)` on an optional timestamp. -/
def expiredAt (now : Time) (t : Option Time) : Bool :=
  match t with
  | none => false
  | some e => decide (e < now)

/-- `validateAPIKey` validates an API key and returns the associated user. -/
def validateAPIKey (sum256 : Digest) (now : Time) (ctx : Ctx) (apiKey : String)
    (s : APIServer) :
    Except String User × APIServer :=
  let keyHash := hashAPIKey sum256 apiKey
  let s := s.call (.GetAPIKeyByHash keyHash)
  match s.store.GetAPIKeyByHash keyHash with
  | none => (.error "invalid API key", s)
  | some key =>
    if key.RevokedAt.isSome then (.error "API key has been revoked", s)
    else if expiredAt now key.ExpiresAt then (.error "API key has expired", s)
    else
      let s := s.go ctx (.UpdateAPIKeyLastUsed key.ID)
      let s := s.call (.GetUser key.UserID)
      match s.store.GetUser key.UserID with
      | none => (.error "user not found for API key", s)
      | some user =>
        let s := s.Debug ("API key authenticated: user=" ++ user.Username ++ " key=" ++ key.Name)
        (.ok user, s)

/-- `validateSession` validates a session token and returns the associated user. -/
def validateSession (sum256 : Digest) (now : Time) (ctx : Ctx) (sessionToken : String)
    (s : APIServer) :
    Except String User × APIServer :=
  let tokenHash := hashSessionToken sum256 sessionToken
  let s := s.call (.GetHTTPSessionByToken tokenHash)
  match s.store.GetHTTPSessionByToken tokenHash with
  | none => (.error "invalid session token", s)
  | some session =>
    if decide (session.ExpiresAt < now) then
      let s := s.call (.DeleteHTTPSession session.ID)
      let s := { s with store := s.store.DeleteHTTPSession session.ID }
      (.error "session has expired", s)
    else
      let s := s.go ctx (.UpdateHTTPSessionLastSeen session.ID)
      let s := s.call (.GetUser session.UserID)
      match s.store.GetUser session.UserID with
      | none => (.error "user not found for session", s)
      | some user =>
        let s := s.Debug ("Session authenticated: user=" ++ user.Username)
        (.ok user, s)

/-- `validateBearerToken` validates a JWT bearer token (not implemented: always an error). -/
def validateBearerToken (_ctx : Ctx) (_token : String) (s : APIServer) :
    Except String User × APIServer :=
  (.error "JWT authentication not yet implemented", s)

/-! ### The gin context -/

/-- A value stored under a key of `gin.Context.Keys` (`any`): the middleware stores strings
and booleans. -/
inductive Value where
  | str (v : String)
  | bool (b : Bool)
  deriving DecidableEq, Repr

/-- The parts of `*http.Request` the middleware reads. `Header` holds canonical header names
with their first value, `Cookies` the cookies by name with their unescaped value,
`ClientIP` what `c.ClientIP()` returns, and `Ctx` what `c.Request.Context()` returns. -/
structure Request where
  Method : String
  Path : String
  ClientIP : String
  Ctx : Ctx
  Header : List (String × String)
  Cookies : List (String × String)
  deriving DecidableEq, Repr

/-- The body of a `gin.H` with string values. -/
abbrev H := List (String × String)

/-- The state of a `*gin.Context` across one middleware: the request, the `Keys` map, the
responses rendered with `c.JSON` (oldest first), whether `c.Abort()` was called, and how many
times `c.Next()` handed the request to the rest of the chain. -/
structure Context where
  Request : Request
  Keys : List (String × Value)
  Written : List (Nat × H)
  Aborted : Bool
  Nexts : Nat
  deriving DecidableEq, Repr

/-- `c.GetHeader(key)`: the first value of the header or the empty string. -/
def Context.GetHeader (c : Context) (key : String) : String :=
  (c.Request.Header.lookup key).getD ""

/-- `c.Cookie(name)`: the cookie value, `none` when `err != nil`. -/
def Context.Cookie (c : Context) (name : String) : Option String :=
  c.Request.Cookies.lookup name

/-- `c.Set(key, value)`. -/
def Context.Set (c : Context) (key : String) (v : Value) : Context :=
  { c with Keys := (key, v) :: c.Keys.filter (fun kv => !(kv.1 == key)) }

/-- `c.Get(key)`: `none` when `exists` is false. -/
def Context.Get (c : Context) (key : String) : Option Value :=
  c.Keys.lookup key

/-- `c.Next()`: the pending handlers of the chain run. -/
def Context.Next (c : Context) : Context :=
  { c with Nexts := c.Nexts + 1 }

/-- `c.Abort()`: the pending handlers of the chain will not run. -/
def Context.Abort (c : Context) : Context :=
  { c with Aborted := true }

/-- `c.JSON(code, obj)`. -/
def Context.JSON (c : Context) (code : Nat) (obj : H) : Context :=
  { c with Written := c.Written ++ [(code, obj)] }

/-- `http.StatusUnauthorized`. -/
def StatusUnauthorized : Nat := 401

/-- `http.StatusForbidden`. -/
def StatusForbidden : Nat := 403

/-- `setAuthContext` sets authentication context in the Gin context. -/
def setAuthContext (c : Context) (userID username : String) (isAdmin : Bool)
    (authMethod : String) : Context :=
  let c := c.Set "user_id" (.str userID)
  let c := c.Set "username" (.str username)
  let c := c.Set "is_admin" (.bool isAdmin)
  let c := c.Set "auth_method" (.str authMethod)
  c.Set "authenticated" (.bool true)

/-- `strings.HasPrefix(s, p)`. -/
def hasPrefix (s p : String) : Bool :=
  decide (p.data <+: s.data)

/-- `strings.TrimPrefix(s, p)`. -/
def trimPrefix (s p : String) : String :=
  if hasPrefix s p then String.mk (s.data.drop p.data.length) else s

/-- `authMiddleware`, lines 81-86: no valid authentication found. -/
def authFailed (c : Context) (s : APIServer) : Context × APIServer :=
  let s := s.Warn ("Authentication failed for " ++ c.Request.Method ++ " " ++ c.Request.Path
    ++ " from " ++ c.Request.ClientIP)
  let c := c.JSON StatusUnauthorized [("error", "authentication required")]
  (c.Abort, s)

/-- `authMiddleware`, lines 69-86: try Bearer token authentication; `ctx` of line 43 is
`c.Request.Ctx`. -/
def authBearer (c : Context) (s : APIServer) : Context × APIServer :=
  let authHeader := c.GetHeader "Authorization"
  if authHeader ≠ "" then
    if hasPrefix authHeader "Bearer " then
      let bearerToken := trimPrefix authHeader "Bearer "
      match validateBearerToken c.Request.Ctx bearerToken s with
      | (.ok user, s) =>
        ((setAuthContext c user.ID user.Username user.IsAdmin "bearer").Next, s)
      | (.error _, s) => authFailed c s
    else authFailed c s
  else authFailed c s

/-- The session token of lines 55-60: the header, or the cookie when the header is empty. -/
def sessionTokenOf (c : Context) : String :=
  let sessionToken := c.GetHeader "X-Session-Token"
  if sessionToken = "" then
    match c.Cookie "session_token" with
    | some cookie => cookie
    | none => sessionToken
  else sessionToken

/-- `authMiddleware`, lines 54-86: try Session Token authentication; `ctx` of line 43 is
`c.Request.Ctx`. -/
def authSession (sum256 : Digest) (now : Time) (c : Context) (s : APIServer) :
    Context × APIServer :=
  let sessionToken := sessionTokenOf c
  if sessionToken ≠ "" then
    match validateSession sum256 now c.Request.Ctx sessionToken s with
    | (.ok user, s) =>
      ((setAuthContext c user.ID user.Username user.IsAdmin "session").Next, s)
    | (.error _, s) => authBearer c s
  else authBearer c s

/-- `authMiddleware` enforces authentication for protected endpoints. `nowK` and `nowS` are
the clock readings inside `validateAPIKey` and `validateSession`. -/
def authMiddleware (sum256 : Digest) (nowK nowS : Time) (c : Context) (s : APIServer) :
    Context × APIServer :=
  let ctx := c.Request.Ctx
  let apiKey := c.GetHeader "X-API-Key"
  if apiKey ≠ "" then
    match validateAPIKey sum256 nowK ctx apiKey s with
    | (.ok user, s) =>
      ((setAuthContext c user.ID user.Username user.IsAdmin "api_key").Next, s)
    | (.error _, s) => authSession sum256 nowS c s
  else authSession sum256 nowS c s

/-- The verb `%v` applied to the first result of `c.Get`. -/
def fmtV (v : Option Value) : String :=
  match v with
  | none => "<nil>"
  | some (.str x) => x
  | some (.bool true) => "true"
  | some (.bool false) => "false"

/-- `adminMiddleware`, lines 96-102: deny. -/
def adminDenied (c : Context) (s : APIServer) : Context × APIServer :=
  let userID := c.Get "user_id"
  let s := s.Warn ("Admin access denied for user: " ++ fmtV userID)
  let c := c.JSON StatusForbidden [("error", "admin privileges required")]
  (c.Abort, s)

/-- `adminMiddleware` requires the authenticated user to be an admin. The result is
`Except.error` when the type assertion `isAdmin.(bool)` panics. -/
def adminMiddleware (c : Context) (s : APIServer) : Except String (Context × APIServer) :=
  match c.Get "is_admin" with
  | none => .ok (adminDenied c s)
  | some (.bool isAdmin) =>
    if !isAdmin then .ok (adminDenied c s)
    else .ok (c.Next, s)
  | some (.str _) => .error "interface conversion: interface \x7b\x7d is string, not bool"

/-! ### The claims' vocabulary for the authentication chain -/

/-- The credential schemes, in the order `authMiddleware` tries them. -/
inductive Scheme where
  | api_key
  | session
  | bearer
  deriving DecidableEq, Repr

/-- The string recorded under `auth_method` for a scheme. -/
def Scheme.name : Scheme → String
  | .api_key => "api_key"
  | .session => "session"
  | .bearer => "bearer"

/-- The position of a scheme in the fixed order. -/
def Scheme.rank : Scheme → Nat
  | .api_key => 0
  | .session => 1
  | .bearer => 2

/-- The credential a request presents under a scheme, if any: a non-empty `X-API-Key` header;
a non-empty `X-Session-Token` header or, failing that, `session_token` cookie; an
`Authorization` header that starts with `Bearer `, without that start. -/
def presented : Scheme → Context → Option String
  | .api_key, c =>
    if c.GetHeader "X-API-Key" ≠ "" then some (c.GetHeader "X-API-Key") else none
  | .session, c => if sessionTokenOf c ≠ "" then some (sessionTokenOf c) else none
  | .bearer, c =>
    if c.GetHeader "Authorization" ≠ "" ∧ hasPrefix (c.GetHeader "Authorization") "Bearer " = true
    then some (trimPrefix (c.GetHeader "Authorization") "Bearer ") else none

/-- What the validator of a scheme returns for a credential on a server state. -/
def validatorResult (sum256 : Digest) (nowK nowS : Time) (ctx : Ctx) :
    Scheme → String → APIServer → Except String User
  | .api_key, tok, s => (validateAPIKey sum256 nowK ctx tok s).1
  | .session, tok, s => (validateSession sum256 nowS ctx tok s).1
  | .bearer, tok, s => (validateBearerToken ctx tok s).1

/-- The context holds the identity of user `u` authenticated under scheme `m`. -/
def recordsIdentity (c : Context) (m : Scheme) (u : User) : Prop :=
  c.Get "auth_method" = some (.str m.name) ∧ c.Get "user_id" = some (.str u.ID)
    ∧ c.Get "username" = some (.str u.Username) ∧ c.Get "is_admin" = some (.bool u.IsAdmin)

/-- The context the failure path of `authMiddleware` leaves. -/
def rejected (c : Context) : Context :=
  (c.JSON StatusUnauthorized [("error", "authentication required")]).Abort

/-- The API key record itself is acceptable at `now`: not revoked and not expired. -/
def APIKey.passes (key : APIKey) (now : Time) : Bool :=
  !key.RevokedAt.isSome && !expiredAt now key.ExpiresAt

/-- The session record itself is acceptable at `now`: not expired. -/
def HTTPSession.passes (session : HTTPSession) (now : Time) : Bool :=
  !decide (session.ExpiresAt < now)

/-- The goroutines `validateAPIKey` starts for a key: one last-used update when the record
is found and acceptable, none otherwise. -/
def apiKeyUpdates (sum256 : Digest) (now : Time) (ctx : Ctx) (apiKey : String) (st : Store) :
    List Goroutine :=
  match st.GetAPIKeyByHash (hashAPIKey sum256 apiKey) with
  | some key => if key.passes now then [⟨ctx, .UpdateAPIKeyLastUsed key.ID⟩] else []
  | none => []

/-- The goroutines `validateSession` starts for a token: one last-seen update when the
record is found and acceptable, none otherwise. -/
def sessionUpdates (sum256 : Digest) (now : Time) (ctx : Ctx) (token : String) (st : Store) :
    List Goroutine :=
  match st.GetHTTPSessionByToken (hashSessionToken sum256 token) with
  | some session =>
    if session.passes now then [⟨ctx, .UpdateHTTPSessionLastSeen session.ID⟩] else []
  | none => []

/-- Whether a store call is one of the two timestamp updates. -/
def StoreCall.isUpdate : StoreCall → Bool
  | .UpdateAPIKeyLastUsed _ => true
  | .UpdateHTTPSessionLastSeen _ => true
  | _ => false

/-- The one line `authMiddleware` logs on its failure path, for a request. -/
def failureEntry (q : Request) : LogEntry :=
  ⟨Level.warn, "Authentication failed for " ++ q.Method ++ " " ++ q.Path ++ " from "
    ++ q.ClientIP⟩

/-! ### Concrete states for the worked examples -/

/-- A stand-in for SHA-256 in the worked examples: the identity on bytes. -/
def plainDigest : Digest := fun bs => bs

/-- A store with a live key, a revoked key that expires far in the future, a key of a
deleted user, a live session and a session that expired at instant 50. -/
def demoStore : Store where
  apiKeys :=
    [ { ID := "k1", UserID := "u1", Name := "ci", KeyHash := hashAPIKey plainDigest "live",
        RevokedAt := none, ExpiresAt := some 100 },
      { ID := "k2", UserID := "u1", Name := "old", KeyHash := hashAPIKey plainDigest "gone",
        RevokedAt := some 10, ExpiresAt := some 1000 },
      { ID := "k3", UserID := "u9", Name := "orphan", KeyHash := hashAPIKey plainDigest "lost",
        RevokedAt := none, ExpiresAt := none } ]
  sessions :=
    [ { ID := "s1", UserID := "u2", TokenHash := hashSessionToken plainDigest "tok",
        ExpiresAt := 200 },
      { ID := "s2", UserID := "u1", TokenHash := hashSessionToken plainDigest "stale",
        ExpiresAt := 50 } ]
  users :=
    [ { ID := "u1", Username := "alice", IsAdmin := true },
      { ID := "u2", Username := "bob", IsAdmin := false } ]

/-- A server over `demoStore` that has not yet called the store or logged. -/
def demoServer : APIServer :=
  { store := demoStore, calls := [], spawned := [], logs := [] }

/-- A request with the given headers and cookies on a fresh context. -/
def demoContext (header cookies : List (String × String)) : Context :=
  { Request := { Method := "GET", Path := "/api/v1/servers", ClientIP := "10.0.0.7",
                 Ctx := .request 1, Header := header, Cookies := cookies },
    Keys := [], Written := [], Aborted := false, Nexts := 0 }

end Api

namespace Recording

/-! ### The pattern `ansiRegex` and `ReplaceAll` -/

/-- The byte `\x1b`. -/
def isEsc (b : Byte) : Bool :=
  b.toNat == 0x1b

/-- The byte `[`. -/
def isBracket (b : Byte) : Bool :=
  b.toNat == 0x5b

/-- The class `[0-9;]`. -/
def isParam (b : Byte) : Bool :=
  (decide (0x30 ≤ b.toNat) && decide (b.toNat ≤ 0x39)) || b.toNat == 0x3b

/-- The class `[a-zA-Z]`. -/
def isLetter (b : Byte) : Bool :=
  (decide (0x61 ≤ b.toNat) && decide (b.toNat ≤ 0x7a))
    || (decide (0x41 ≤ b.toNat) && decide (b.toNat ≤ 0x5a))

/-- The length of the match of `\x1b\[[0-9;]*[a-zA-Z]` anchored at the head of the input, if
there is one. The star is greedy and its class is disjoint from the class of the final
letter, so the match, when it exists, takes the whole run of digits and semicolons. -/
def ansiMatchLen : List Byte → Option Nat
  | e :: l :: rest =>
    if isEsc e && isBracket l then
      match rest.dropWhile isParam with
      | t :: _ => if isLetter t then some (2 + (rest.takeWhile isParam).length + 1) else none
      | [] => none
    else none
  | _ => none

/-- The scan of `ansiRegex.ReplaceAll(data, []byte(""))`: `skip` bytes of the current match
are still to be dropped; otherwise a match that starts here is dropped, and a byte at which
no match starts is copied. -/
def replaceAllFrom : Nat → List Byte → List Byte
  | _, [] => []
  | skip + 1, _ :: rest => replaceAllFrom skip rest
  | 0, b :: rest =>
    match ansiMatchLen (b :: rest) with
    | some n => replaceAllFrom (n - 1) rest
    | none => b :: replaceAllFrom 0 rest

/-- The call `ansiRegex.ReplaceAll(data, []byte(""))`. -/
def stripANSI (data : List Byte) : List Byte :=
  replaceAllFrom 0 data

/-! ### Paths (`path/filepath`, Unix) -/

/-- The split of a path at every `/`. -/
def splitSlash : List Char → List (List Char)
  | [] => [[]]
  | c :: cs =>
    match splitSlash cs with
    | [] => [[]]
    | seg :: segs => if c = '/' then [] :: seg :: segs else (c :: seg) :: segs

/-- One element of a path under `filepath.Clean`; `stack` holds the kept elements, last
first. -/
def cleanStep (rooted : Bool) (stack : List (List Char)) (seg : List Char) :
    List (List Char) :=
  if seg = [] ∨ seg = ['.'] then stack
  else if seg = ['.', '.'] then
    match stack with
    | top :: below => if top = ['.', '.'] then seg :: stack else below
    | [] => if rooted then [] else [seg]
  else seg :: stack

/-- `filepath.Clean`. -/
def Clean (path : String) : String :=
  let rooted := path.data.head? == some '/'
  let comps := ((splitSlash path.data).foldl (cleanStep rooted) []).reverse
  let body := String.mk (List.intercalate ['/'] comps)
  if rooted then "/" ++ body else if body = "" then "." else body

/-- `filepath.Join`. -/
def Join : List String → String
  | [] => ""
  | e :: es => if e = "" then Join es else Clean (String.intercalate "/" (e :: es))

/-- The part of a path up to and including its last `/`. -/
def uptoLastSlash (cs : List Char) : List Char :=
  (cs.reverse.dropWhile (fun c => c != '/')).reverse

/-- `filepath.Dir`. -/
def Dir (path : String) : String :=
  Clean (String.mk (uptoLastSlash path.data))

/-! ### Files (`os`) -/

/-- An open file description behind an `*os.File`. -/
structure OpenFile where
  path : String
  offset : Nat
  closed : Bool
  deriving DecidableEq, Repr

/-- The file system: the directories, the regular files with their content, and the table
of `*os.File` values ever returned, indexed by the order of creation. -/
structure FS where
  dirs : List String
  files : List (String × List Byte)
  fds : List OpenFile
  deriving DecidableEq, Repr

/-- Whether a cleaned path is a directory. -/
def FS.isDir (fs : FS) (d : String) : Bool :=
  d == "." || d == "/" || fs.dirs.contains d

/-- The content of a file after `b` is written at `offset`. -/
def writeAt (old : List Byte) (offset : Nat) (b : List Byte) : List Byte :=
  (old ++ List.replicate (offset - old.length) 0).take offset ++ b ++ old.drop (offset + b.length)

/-- Replace the binding of a key in a Go map or a table of files. -/
def setKey {α : Type} (m : List (String × α)) (k : String) (v : α) : List (String × α) :=
  (k, v) :: m.filter (fun kv => !(kv.1 == k))

/-- The built-in `delete(m, k)`. -/
def deleteKey {α : Type} (m : List (String × α)) (k : String) : List (String × α) :=
  m.filter (fun kv => !(kv.1 == k))

/-- `os.Create(name)`: create or truncate the file and open it at offset 0. -/
def FS.Create (fs : FS) (name : String) : Except String Nat × FS :=
  if fs.isDir name then (.error ("open " ++ name ++ ": is a directory"), fs)
  else if !fs.isDir (Dir name) then
    (.error ("open " ++ name ++ ": no such file or directory"), fs)
  else
    (.ok fs.fds.length,
      { fs with files := setKey fs.files name [], fds := fs.fds ++ [⟨name, 0, false⟩] })

/-- `file.Write(b)`. -/
def FS.Write (fs : FS) (file : Nat) (b : List Byte) : Except String Nat × FS :=
  match fs.fds[file]? with
  | none => (.error "invalid argument", fs)
  | some f =>
    if f.closed then (.error ("write " ++ f.path ++ ": file already closed"), fs)
    else
      let old := (fs.files.lookup f.path).getD []
      (.ok b.length,
        { fs with
          files := setKey fs.files f.path (writeAt old f.offset b)
          fds := fs.fds.set file { f with offset := f.offset + b.length } })

/-- `file.WriteString(s)`. -/
def FS.WriteString (fs : FS) (file : Nat) (s : String) : Except String Nat × FS :=
  fs.Write file (bytesOf s)

/-- `file.Close()`: `none` when `err == nil`. -/
def FS.Close (fs : FS) (file : Nat) : Option String × FS :=
  match fs.fds[file]? with
  | none => (some "invalid argument", fs)
  | some f =>
    if f.closed then (some ("close " ++ f.path ++ ": file already closed"), fs)
    else (none, { fs with fds := fs.fds.set file { f with closed := true } })

/-- The directory names `filepath.Clean(path)` passes through, outermost first. -/
def ancestors (path : String) : List String :=
  let p := Clean path
  let rooted := p.data.head? == some '/'
  let parts := (splitSlash p.data).filter (fun seg => !(seg == []))
  (parts.inits.filter (fun pre => !(pre == []))).map
    (fun pre => (if rooted then "/" else "") ++ String.mk (List.intercalate ['/'] pre))

/-- `os.MkdirAll(path, perm)`: `none` when `err == nil`. -/
def FS.MkdirAll (fs : FS) (path : String) : Option String × FS :=
  let ds := ancestors path
  match ds.find? (fun d => (fs.files.lookup d).isSome) with
  | some d => (some ("mkdir " ++ d ++ ": not a directory"), fs)
  | none => (none, { fs with dirs := fs.dirs ++ ds.filter (fun d => !fs.isDir d) })

/-! ### The recorder -/

/-- The layouts `time.Time.Format(time.RFC3339)` and `time.Duration.String()` of the Go
standard library, taken as parameters. -/
structure TimeFormat where
  rfc3339 : Time → String
  duration : Int → String

/-- `SessionRecorder` records a single SSH session. -/
structure SessionRecorder where
  sessionID : String
  file : Nat
  startTime : Time
  deriving DecidableEq, Repr

/-- The state behind `*Recorder`: the storage path and the table of active sessions. -/
structure Recorder where
  storagePath : String
  sessions : List (String × SessionRecorder)
  deriving DecidableEq, Repr

/-- What the recorder acts on: the file system, the lines handed to `r.logger`, and the
lines printed to `os.Stderr`. -/
structure Sys where
  fs : FS
  logs : List LogEntry
  stderr : List String
  deriving DecidableEq, Repr

/-- The call `r.logger.Info(...)`, already formatted. -/
def Sys.Info (w : Sys) (msg : String) : Sys :=
  { w with logs := w.logs ++ [⟨Level.info, msg⟩] }

/-- The call `r.logger.Error(...)`, already formatted. -/
def Sys.Error (w : Sys) (msg : String) : Sys :=
  { w with logs := w.logs ++ [⟨Level.error, msg⟩] }

/-- `NewRecorder` creates a new session recorder. -/
def NewRecorder (storagePath : String) (w : Sys) : Except String Recorder × Sys :=
  match w.fs.MkdirAll storagePath with
  | (some err, fs) =>
    (.error ("failed to create storage directory: " ++ err), { w with fs := fs })
  | (none, fs) => (.ok { storagePath := storagePath, sessions := [] }, { w with fs := fs })

/-- `GetRecordingStoragePath` returns the path to the recorder storage path. -/
def Recorder.GetRecordingStoragePath (r : Recorder) : String :=
  r.storagePath

/-- `GetRecordingPath` returns the path to a session recording. -/
def Recorder.GetRecordingPath (r : Recorder) (sessionID : String) : String :=
  Join [r.storagePath, sessionID ++ ".txt"]

/-- The header written by `StartRecording`. -/
def headerOf (tf : TimeFormat) (sessionID : String) (startTime : Time) : String :=
  "# Orion-Belt Session Recording\n# Session ID: " ++ sessionID ++ "\n# Start Time: "
    ++ tf.rfc3339 startTime ++ "\n\n"

/-- The footer written by `StopRecording`; `now` is the reading of `time.Now()` and `since`
the reading inside `time.Since`. -/
def footerOf (tf : TimeFormat) (startTime now since : Time) : String :=
  "\n# End Time: " ++ tf.rfc3339 now ++ "\n# Duration: " ++ tf.duration (since - startTime)
    ++ "\n"

/-- `StartRecording` starts recording a new session. -/
def Recorder.StartRecording (tf : TimeFormat) (now : Time) (sessionID : String)
    (r : Recorder) (w : Sys) : Except String SessionRecorder × Recorder × Sys :=
  match r.sessions.lookup sessionID with
  | some _ => (.error ("session already being recorded: " ++ sessionID), r, w)
  | none =>
    let filename := r.GetRecordingPath sessionID
    match w.fs.Create filename with
    | (.error err, fs) =>
      (.error ("failed to create recording file: " ++ err), r, { w with fs := fs })
    | (.ok file, fs) =>
      let recorder : SessionRecorder := { sessionID := sessionID, file := file, startTime := now }
      let header := headerOf tf sessionID recorder.startTime
      let fs := (fs.WriteString file header).2
      let r := { r with sessions := setKey r.sessions sessionID recorder }
      let w := ({ w with fs := fs } : Sys).Info ("Started recording session: " ++ sessionID)
      (.ok recorder, r, w)

/-- `StopRecording` stops recording a session; `none` when the returned error is nil. -/
def Recorder.StopRecording (tf : TimeFormat) (now since : Time) (sessionID : String)
    (r : Recorder) (w : Sys) : Option String × Recorder × Sys :=
  match r.sessions.lookup sessionID with
  | none => (some ("session not being recorded: " ++ sessionID), r, w)
  | some recorder =>
    let footer := footerOf tf recorder.startTime now since
    let fs := (w.fs.WriteString recorder.file footer).2
    let w : Sys :=
      match fs.Close recorder.file with
      | (some err, fs) =>
        ({ w with fs := fs } : Sys).Error
          ("Failed to close recording file for session " ++ sessionID ++ ": " ++ err)
      | (none, fs) => { w with fs := fs }
    let r := { r with sessions := deleteKey r.sessions sessionID }
    let w := w.Info ("Stopped recording session: " ++ sessionID)
    (none, r, w)

/-- `GetRecorder` returns a session recorder. -/
def Recorder.GetRecorder (r : Recorder) (sessionID : String) : Except String SessionRecorder :=
  match r.sessions.lookup sessionID with
  | none => .error ("session not being recorded: " ++ sessionID)
  | some recorder => .ok recorder

/-- `Write` writes data to the session recording; `none` when the returned error is nil. -/
def SessionRecorder.Write (s : SessionRecorder) (data : List Byte) (w : Sys) :
    Option String × Sys :=
  let cleanData := stripANSI data
  match w.fs.Write s.file cleanData with
  | (.error err, fs) => (some ("failed to write to recording: " ++ err), { w with fs := fs })
  | (.ok _, fs) => (none, { w with fs := fs })

/-- An `io.Writer` with a state of its own: `Write(p)` returns `(n, err)`; it runs in the
system the recorder acts on, which it may read and change. -/
structure Writer (σ : Type) where
  Write : List Byte → Sys → σ → (Nat × Option String) × Sys × σ

/-- An `io.Reader` over a state of its own: `Read(p)` for a buffer of the given length returns
the bytes read and `err`. -/
structure Reader (σ : Type) where
  Read : Nat → σ → (List Byte × Option String) × σ

/-- `RecordingWriter` wraps an `io.Writer` to record data. -/
structure RecordingWriter (σ : Type) where
  writer : Writer σ
  recorder : SessionRecorder

/-- `NewRecordingWriter` creates a new recording writer. -/
def NewRecordingWriter {σ : Type} (writer : Writer σ) (recorder : SessionRecorder) :
    RecordingWriter σ :=
  { writer := writer, recorder := recorder }

/-- `RecordingWriter.Write` writes data and records it. -/
def RecordingWriter.Write {σ : Type} (rw : RecordingWriter σ) (p : List Byte) (w : Sys)
    (u : σ) : (Nat × Option String) × Sys × σ :=
  let (err, w) := rw.recorder.Write p w
  let w : Sys :=
    match err with
    | some e => { w with stderr := w.stderr ++ ["Recording error: " ++ e ++ "\n"] }
    | none => w
  rw.writer.Write p w u

/-- `RecordingReader` wraps an `io.Reader` to record data. -/
structure RecordingReader (σ : Type) where
  reader : Reader σ

/-- `NewRecordingReader` creates a new recording reader; the recorder is dropped. -/
def NewRecordingReader {σ : Type} (reader : Reader σ) (_recorder : SessionRecorder) :
    RecordingReader σ :=
  { reader := reader }

/-- `RecordingReader.Read` reads data; nothing is recorded. -/
def RecordingReader.Read {σ : Type} (rr : RecordingReader σ) (n : Nat) (u : σ) :
    (List Byte × Option String) × σ :=
  rr.reader.Read n u

/-- The content of the artifact of a session: the file at its recording path. -/
def artifact (r : Recorder) (w : Sys) (sessionID : String) : Option (List Byte) :=
  w.fs.files.lookup (r.GetRecordingPath sessionID)

/-- The calls `Write(d1)`, ..., `Write(dn)` on one session recorder, in order, with the
errors they return. -/
def writeAll (s : SessionRecorder) : List (List Byte) → Sys → List (Option String) × Sys
  | [], w => ([], w)
  | d :: ds, w =>
    let (e, w1) := s.Write d w
    let (es, w2) := writeAll s ds w1
    (e :: es, w2)

/-! ### The claims' vocabulary for the recorder -/

/-- The file behind handle `file` is open on `path` and positioned at the end of `content`,
which is what the file holds. -/
def FS.AtEnd (fs : FS) (file : Nat) (path : String) (content : List Byte) : Prop :=
  fs.fds[file]? = some ⟨path, content.length, false⟩ ∧ fs.files.lookup path = some content

/-- Whether a match of `ansiRegex` starts at the head of the bytes. -/
def matchesAt (bs : List Byte) : Bool :=
  (ansiMatchLen bs).isSome

/-- Whether the bytes contain an ANSI escape sequence: a match of `ansiRegex` starts at some
position. -/
def hasANSI : List Byte → Bool
  | [] => false
  | b :: rest => matchesAt (b :: rest) || hasANSI rest

/-- Whether the bytes begin with an unterminated introducer (`ESC` alone, or `ESC`, `[` and
digits or semicolons) that an escape sequence follows immediately. -/
def introducerThenSequence : List Byte → Bool
  | e :: rest =>
    isEsc e && (matchesAt rest ||
      match rest with
      | l :: rest2 => isBracket l && matchesAt (rest2.dropWhile isParam)
      | [] => false)
  | [] => false

/-- Whether somewhere in the bytes an escape sequence immediately follows an unterminated
introducer. -/
def hasSplitSequence : List Byte → Bool
  | [] => false
  | b :: rest => introducerThenSequence (b :: rest) || hasSplitSequence rest

/-- Whether the first byte after the leading digits and semicolons is a letter. -/
def letterNext (bs : List Byte) : Bool :=
  match bs.dropWhile isParam with
  | t :: _ => isLetter t
  | [] => false

/-- Writing bytes for a session id: `GetRecorder(id)`, then `Write` on the recorder it
returns. -/
def writeFor (r : Recorder) (id : String) (data : List Byte) (w : Sys) : Option String × Sys :=
  match r.GetRecorder id with
  | .error e => (some e, w)
  | .ok recorder => recorder.Write data w

/-- The system as `RecordingWriter.Write(p)` leaves it for the underlying writer: the recorder
has been offered `p`, and its error, if any, has been printed to standard error. -/
def offered (recorder : SessionRecorder) (p : List Byte) (w : Sys) : Sys :=
  match recorder.Write p w with
  | (some e, w1) => { w1 with stderr := w1.stderr ++ ["Recording error: " ++ e ++ "\n"] }
  | (none, w1) => w1

/-- An underlying writer that returns the fixed `(n, err)` and keeps, for every call, the
slice it was given and the file system it saw. -/
def tapeWriter (res : Nat × Option String) : Writer (List (List Byte × FS)) :=
  { Write := fun p w tape => (res, w, tape ++ [(p, w.fs)]) }

/-- Whether the bytes are an unterminated introducer: `ESC` alone, or `ESC`, `[` and then
only digits or semicolons. -/
def isIntroducer : List Byte → Bool
  | [] => false
  | [e] => isEsc e
  | e :: l :: ps => isEsc e && isBracket l && ps.all isParam

/-- Whether the bytes end in an unterminated introducer. -/
def endsInIntroducer : List Byte → Bool
  | [] => false
  | b :: rest => isIntroducer (b :: rest) || endsInIntroducer rest

/-- One call on the recorder's interface. -/
inductive Op where
  | StartRecording (now : Time) (sessionID : String)
  | StopRecording (now since : Time) (sessionID : String)
  | GetRecorder (sessionID : String)
  | Write (s : SessionRecorder) (data : List Byte)

/-- The recorder and the system after one call. -/
def Op.run (tf : TimeFormat) : Op → Recorder × Sys → Recorder × Sys
  | .StartRecording now sessionID, (r, w) => (r.StartRecording tf now sessionID w).2
  | .StopRecording now since sessionID, (r, w) => (r.StopRecording tf now since sessionID w).2
  | .GetRecorder _, st => st
  | .Write s data, (r, w) => (r, (s.Write data w).2)

/-- The recorder and the system after a sequence of calls, first to last. -/
def runOps (tf : TimeFormat) (ops : List Op) (st : Recorder × Sys) : Recorder × Sys :=
  ops.foldl (fun st op => op.run tf st) st

/-- The states reachable from a successful `NewRecorder` by calls on the interface. -/
def Reachable (tf : TimeFormat) (r : Recorder) (w : Sys) : Prop :=
  ∃ (storagePath : String) (w0 : Sys) (r0 : Recorder) (w1 : Sys) (ops : List Op),
    NewRecorder storagePath w0 = (.ok r0, w1) ∧ runOps tf ops (r0, w1) = (r, w)

/-- The invariant of the table: no id is a key twice, the entry under a key carries that key
as its `sessionID`, every entry's file was returned by `os.Create`, and no two entries share a
file. -/
def TableOK (r : Recorder) (w : Sys) : Prop :=
  (r.sessions.map Prod.fst).Nodup
    ∧ (∀ kv ∈ r.sessions, kv.2.sessionID = kv.1)
    ∧ (∀ kv ∈ r.sessions, kv.2.file < w.fs.fds.length)
    ∧ (r.sessions.map (fun kv => kv.2.file)).Nodup

/-- The path of the file `name` directly inside the cleaned directory `dir`. -/
def inDir (dir name : String) : String :=
  if dir = "." then name else if dir = "/" then "/" ++ name else dir ++ "/" ++ name

/-- A session id that is a plain name: it contains no `/`. -/
def plainID (id : String) : Prop :=
  '/' ∉ id.data

/-- What `filepath.Clean` keeps on its stack: elements that are not empty, not `.`, and have
no `/`. -/
def KeptOK (stack : List (List Char)) : Prop :=
  ∀ seg ∈ stack, seg ≠ [] ∧ seg ≠ ['.'] ∧ '/' ∉ seg

/-! ### Concrete states for the worked examples -/

/-- The layouts used in the worked examples: every instant prints as one fixed timestamp and
every duration as `4ns`. -/
def demoFormat : TimeFormat :=
  { rfc3339 := fun _ => "2024-05-01T10:00:00Z", duration := fun _ => "4ns" }

/-- A recorder over the storage directory `rec` with no active session. -/
def demoRecorder : Recorder :=
  { storagePath := "rec", sessions := [] }

/-- A system whose only directory is `rec`, with no file, no open handle and no output. -/
def demoSys : Sys :=
  { fs := { dirs := ["rec"], files := [], fds := [] }, logs := [], stderr := [] }

/-- A recorder whose table holds `s1` on handle 0. -/
def stuckRecorder : Recorder :=
  { storagePath := "rec", sessions := [("s1", ⟨"s1", 0, 5⟩)] }

/-- A system in which handle 0 is already closed, so that closing it again fails. -/
def stuckSys : Sys :=
  { fs := { dirs := ["rec"], files := [("rec/s1.txt", [])], fds := [⟨"rec/s1.txt", 0, true⟩] },
    logs := [], stderr := [] }

/-- The recorder of `s1` on handle 0, started at instant 5. -/
def demoSession : SessionRecorder :=
  { sessionID := "s1", file := 0, startTime := 5 }

/-- A system in which `rec/s1.txt` is empty and open on handle 0. -/
def openSys : Sys :=
  { fs := { dirs := ["rec"], files := [("rec/s1.txt", [])], fds := [⟨"rec/s1.txt", 0, false⟩] },
    logs := [], stderr := [] }

/-- A system with no directory, no file, no open handle and no output. -/
def freshSys : Sys :=
  { fs := { dirs := [], files := [], fds := [] }, logs := [], stderr := [] }

/-- Two starts of `s1`, a start of `s2`, a write to `s1` and a stop of `s1`. -/
def demoOps : List Op :=
  [.StartRecording 5 "s1", .StartRecording 6 "s1", .StartRecording 7 "s2",
    .Write ⟨"s1", 0, 5⟩ [0x68, 0x69], .StopRecording 9 9 "s1"]

end Recording

/-! ## Part II. Theorems -/

namespace Api

/-! ### The authentication chain -/

theorem get_setAuthContext (c : Context) (uid un : String) (adm : Bool) (m : String) :
    (setAuthContext c uid un adm m).Get "auth_method" = some (.str m)
    ∧ (setAuthContext c uid un adm m).Get "user_id" = some (.str uid)
    ∧ (setAuthContext c uid un adm m).Get "username" = some (.str un)
    ∧ (setAuthContext c uid un adm m).Get "is_admin" = some (.bool adm)
    ∧ (setAuthContext c uid un adm m).Get "authenticated" = some (.bool true) := by
  simp [setAuthContext, Context.Set, Context.Get, List.lookup]

theorem setAuthContext_frame (c : Context) (uid un : String) (adm : Bool) (m : String) :
    (setAuthContext c uid un adm m).Nexts = c.Nexts
    ∧ (setAuthContext c uid un adm m).Aborted = c.Aborted
    ∧ (setAuthContext c uid un adm m).Written = c.Written
    ∧ (setAuthContext c uid un adm m).Request = c.Request := by
  simp [setAuthContext, Context.Set]

theorem validateAPIKey_store (H : Digest) (now : Time) (ctx : Ctx) (k : String) (s : APIServer) :
    (validateAPIKey H now ctx k s).2.store = s.store := by
  unfold validateAPIKey
  simp only [APIServer.call, APIServer.go, APIServer.Debug]
  split
  · rfl
  · split
    · rfl
    · split
      · rfl
      · split <;> rfl

theorem validateSession_fst_congr (H : Digest) (now : Time) (ctx : Ctx) (t : String)
    (s s' : APIServer)
    (h : s.store = s'.store) :
    (validateSession H now ctx t s).1 = (validateSession H now ctx t s').1 := by
  unfold validateSession
  simp only [APIServer.call, APIServer.go, APIServer.Debug, h]
  split
  · rfl
  · split
    · rfl
    · split <;> rfl

theorem authFailed_fst (c : Context) (s : APIServer) : (authFailed c s).1 = rejected c := rfl

theorem authBearer_eq (c : Context) (s : APIServer) : authBearer c s = authFailed c s := by
  simp only [authBearer, validateBearerToken]
  split
  · split <;> rfl
  · rfl

theorem presented_api_key (c : Context) (k : String) (hp : presented .api_key c = some k) :
    c.GetHeader "X-API-Key" ≠ "" ∧ k = c.GetHeader "X-API-Key" := by
  simp only [presented] at hp
  by_cases hne : c.GetHeader "X-API-Key" ≠ ""
  · rw [if_pos hne] at hp
    exact ⟨hne, (Option.some.inj hp).symm⟩
  · rw [if_neg hne] at hp
    cases hp

theorem presented_session (c : Context) (t : String) (hp : presented .session c = some t) :
    sessionTokenOf c ≠ "" ∧ t = sessionTokenOf c := by
  simp only [presented] at hp
  by_cases hne : sessionTokenOf c ≠ ""
  · rw [if_pos hne] at hp
    exact ⟨hne, (Option.some.inj hp).symm⟩
  · rw [if_neg hne] at hp
    cases hp

theorem authSession_ok (H : Digest) (now : Time) (c : Context) (s : APIServer) (t : String)
    (u : User) (hp : presented .session c = some t)
    (hv : (validateSession H now c.Request.Ctx t s).1 = .ok u) :
    (authSession H now c s).1 = (setAuthContext c u.ID u.Username u.IsAdmin "session").Next := by
  obtain ⟨hne, rfl⟩ := presented_session c t hp
  simp only [authSession]
  rw [if_pos hne]
  rcases hr : validateSession H now c.Request.Ctx (sessionTokenOf c) s with ⟨res, s1⟩
  rw [hr] at hv
  simp only at hv
  subst hv
  rfl

theorem authSession_fail (H : Digest) (now : Time) (c : Context) (s : APIServer)
    (hv : ∀ t, presented .session c = some t →
      ∃ e, (validateSession H now c.Request.Ctx t s).1 = .error e) :
    (authSession H now c s).1 = rejected c := by
  simp only [authSession]
  by_cases hne : sessionTokenOf c ≠ ""
  · rw [if_pos hne]
    obtain ⟨e, he⟩ := hv (sessionTokenOf c) (by simp only [presented]; rw [if_pos hne])
    rcases hr : validateSession H now c.Request.Ctx (sessionTokenOf c) s with ⟨res, s1⟩
    rw [hr] at he
    simp only at he
    subst he
    simp only [authBearer_eq, authFailed_fst]
  · rw [if_neg hne]
    simp only [authBearer_eq, authFailed_fst]

theorem authMiddleware_apiKey_ok (H : Digest) (nowK nowS : Time) (c : Context) (s : APIServer)
    (k : String) (u : User) (hp : presented .api_key c = some k)
    (hv : (validateAPIKey H nowK c.Request.Ctx k s).1 = .ok u) :
    (authMiddleware H nowK nowS c s).1
      = (setAuthContext c u.ID u.Username u.IsAdmin "api_key").Next := by
  obtain ⟨hne, rfl⟩ := presented_api_key c k hp
  simp only [authMiddleware]
  rw [if_pos hne]
  rcases hr : validateAPIKey H nowK c.Request.Ctx (c.GetHeader "X-API-Key") s with ⟨res, s1⟩
  rw [hr] at hv
  simp only at hv
  subst hv
  rfl

theorem authMiddleware_apiKey_fail (H : Digest) (nowK nowS : Time) (c : Context)
    (s : APIServer)
    (hv : ∀ k, presented .api_key c = some k →
      ∃ e, (validateAPIKey H nowK c.Request.Ctx k s).1 = .error e) :
    ∃ s1, s1.store = s.store ∧
      (authMiddleware H nowK nowS c s) = (authSession H nowS c s1) := by
  simp only [authMiddleware]
  by_cases hne : c.GetHeader "X-API-Key" ≠ ""
  · rw [if_pos hne]
    obtain ⟨e, he⟩ := hv (c.GetHeader "X-API-Key") (by simp only [presented]; rw [if_pos hne])
    have hst := validateAPIKey_store H nowK c.Request.Ctx (c.GetHeader "X-API-Key") s
    rcases hr : validateAPIKey H nowK c.Request.Ctx (c.GetHeader "X-API-Key") s with ⟨res, s1⟩
    rw [hr] at he hst
    simp only at he hst
    subst he
    exact ⟨s1, hst, rfl⟩
  · rw [if_neg hne]
    exact ⟨s, rfl, rfl⟩

theorem except_ok_or_error {α : Type} (r : Except String α) :
    (∃ a, r = .ok a) ∨ (∃ e, r = .error e) := by
  cases r with
  | ok a => exact Or.inl ⟨a, rfl⟩
  | error e => exact Or.inr ⟨e, rfl⟩

/-- The three ways `authMiddleware` ends: accepted by API key, accepted by session after the
API key was absent or refused, or rejected after both were absent or refused. The verdicts are
those of the validators on the server state the middleware started from. -/
theorem authMiddleware_cases (H : Digest) (nowK nowS : Time) (c : Context) (s : APIServer) :
    (∃ k u, presented .api_key c = some k ∧ (validateAPIKey H nowK c.Request.Ctx k s).1 = .ok u
        ∧ (authMiddleware H nowK nowS c s).1
          = (setAuthContext c u.ID u.Username u.IsAdmin "api_key").Next)
    ∨ ((∀ k, presented .api_key c = some k →
          ∃ e, (validateAPIKey H nowK c.Request.Ctx k s).1 = .error e)
        ∧ ∃ t u, presented .session c = some t
          ∧ (validateSession H nowS c.Request.Ctx t s).1 = .ok u
          ∧ (authMiddleware H nowK nowS c s).1
            = (setAuthContext c u.ID u.Username u.IsAdmin "session").Next)
    ∨ ((∀ k, presented .api_key c = some k →
          ∃ e, (validateAPIKey H nowK c.Request.Ctx k s).1 = .error e)
        ∧ (∀ t, presented .session c = some t →
          ∃ e, (validateSession H nowS c.Request.Ctx t s).1 = .error e)
        ∧ (authMiddleware H nowK nowS c s).1 = rejected c) := by
  by_cases hK : ∃ k u, presented .api_key c = some k
      ∧ (validateAPIKey H nowK c.Request.Ctx k s).1 = .ok u
  · obtain ⟨k, u, hp, hv⟩ := hK
    exact Or.inl ⟨k, u, hp, hv, authMiddleware_apiKey_ok H nowK nowS c s k u hp hv⟩
  · have hKf : ∀ k, presented .api_key c = some k →
        ∃ e, (validateAPIKey H nowK c.Request.Ctx k s).1 = .error e := by
      intro k hp
      rcases except_ok_or_error (validateAPIKey H nowK c.Request.Ctx k s).1 with ⟨u, hu⟩ | he
      · exact absurd ⟨k, u, hp, hu⟩ hK
      · exact he
    obtain ⟨s1, hst, heq⟩ := authMiddleware_apiKey_fail H nowK nowS c s hKf
    by_cases hS : ∃ t u, presented .session c = some t
        ∧ (validateSession H nowS c.Request.Ctx t s).1 = .ok u
    · obtain ⟨t, u, hp, hv⟩ := hS
      refine Or.inr (Or.inl ⟨hKf, t, u, hp, hv, ?_⟩)
      rw [heq]
      apply authSession_ok H nowS c s1 t u hp
      rw [validateSession_fst_congr H nowS c.Request.Ctx t s1 s hst]
      exact hv
    · have hSf : ∀ t, presented .session c = some t →
          ∃ e, (validateSession H nowS c.Request.Ctx t s).1 = .error e := by
        intro t hp
        rcases except_ok_or_error (validateSession H nowS c.Request.Ctx t s).1 with ⟨u, hu⟩ | he
        · exact absurd ⟨t, u, hp, hu⟩ hS
        · exact he
      refine Or.inr (Or.inr ⟨hKf, hSf, ?_⟩)
      rw [heq]
      apply authSession_fail
      intro t hp
      rw [validateSession_fst_congr H nowS c.Request.Ctx t s1 s hst]
      exact hSf t hp

theorem rejected_frame (c : Context) :
    (rejected c).Nexts = c.Nexts ∧ (rejected c).Aborted = true ∧ (rejected c).Keys = c.Keys
      ∧ (rejected c).Written = c.Written ++ [(401, [("error", "authentication required")])] := by
  simp [rejected, Context.JSON, Context.Abort, StatusUnauthorized]

theorem accepted_frame (c : Context) (uid un : String) (adm : Bool) (m : String) :
    (setAuthContext c uid un adm m).Next.Nexts = c.Nexts + 1
      ∧ (setAuthContext c uid un adm m).Next.Aborted = c.Aborted
      ∧ (setAuthContext c uid un adm m).Next.Written = c.Written := by
  simp [setAuthContext, Context.Set, Context.Next]

theorem recordsIdentity_set (c : Context) (m : Scheme) (u : User) :
    recordsIdentity (setAuthContext c u.ID u.Username u.IsAdmin m.name).Next m u := by
  have h := get_setAuthContext c u.ID u.Username u.IsAdmin m.name
  exact ⟨h.1, h.2.1, h.2.2.1, h.2.2.2.1⟩

/-- C1. Whenever `authMiddleware` accepts a request (it calls `c.Next()`), the `auth_method`
it records names the first scheme, in the order api_key, session, bearer, whose credential
was presented and whose validator succeeded, and `user_id`, `username` and `is_admin` are
those of the user that validator returned; and a request is accepted as soon as some
presented credential validates, whatever happened to the schemes before it (not presented, or
presented and refused). -/
theorem authMiddleware_records_first_valid_scheme (H : Digest) (nowK nowS : Time)
    (c : Context) (s : APIServer) :
    ((authMiddleware H nowK nowS c s).1.Nexts = c.Nexts + 1 →
      ∃ m tok u, presented m c = some tok
        ∧ validatorResult H nowK nowS c.Request.Ctx m tok s = .ok u
        ∧ (∀ m2 tok2, m2.rank < m.rank → presented m2 c = some tok2 →
            ∃ e, validatorResult H nowK nowS c.Request.Ctx m2 tok2 s = .error e)
        ∧ recordsIdentity (authMiddleware H nowK nowS c s).1 m u)
    ∧ (∀ m tok u, presented m c = some tok →
        validatorResult H nowK nowS c.Request.Ctx m tok s = .ok u →
        (authMiddleware H nowK nowS c s).1.Nexts = c.Nexts + 1
          ∧ (authMiddleware H nowK nowS c s).1.Aborted = c.Aborted
          ∧ (authMiddleware H nowK nowS c s).1.Written = c.Written) := by
  rcases authMiddleware_cases H nowK nowS c s with
    ⟨k, u, hp, hv, heq⟩ | ⟨hKf, t, u, hp, hv, heq⟩ | ⟨hKf, hSf, heq⟩
  · constructor
    · intro _
      refine ⟨.api_key, k, u, hp, hv, ?_, ?_⟩
      · intro m2 tok2 hlt
        cases m2 <;> simp [Scheme.rank] at hlt
      · rw [heq]
        exact recordsIdentity_set c .api_key u
    · intro m tok u2 _ _
      rw [heq]
      exact accepted_frame c _ _ _ _
  · constructor
    · intro _
      refine ⟨.session, t, u, hp, hv, ?_, ?_⟩
      · intro m2 tok2 hlt hp2
        cases m2 with
        | api_key => exact hKf tok2 hp2
        | session => simp [Scheme.rank] at hlt
        | bearer => simp [Scheme.rank] at hlt
      · rw [heq]
        exact recordsIdentity_set c .session u
    · intro m tok u2 _ _
      rw [heq]
      exact accepted_frame c _ _ _ _
  · constructor
    · intro hacc
      rw [heq, (rejected_frame c).1] at hacc
      omega
    · intro m tok u2 hp2 hv2
      cases m with
      | api_key =>
        obtain ⟨e, he⟩ := hKf tok hp2
        simp only [validatorResult, he] at hv2
        cases hv2
      | session =>
        obtain ⟨e, he⟩ := hSf tok hp2
        simp only [validatorResult, he] at hv2
        cases hv2
      | bearer =>
        simp [validatorResult, validateBearerToken] at hv2

/-- C1, worked example: a request that presents a revoked API key and a live session token is
accepted under `session`, with the identity of the session's user. -/
theorem authMiddleware_records_first_valid_scheme_example :
    presented .session (demoContext [("X-API-Key", "gone"), ("X-Session-Token", "tok")] [])
        = some "tok"
      ∧ (authMiddleware plainDigest 60 60
          (demoContext [("X-API-Key", "gone"), ("X-Session-Token", "tok")] [])
          demoServer).1.Nexts = 0 + 1 :=
  ⟨by decide,
    ((authMiddleware_records_first_valid_scheme plainDigest 60 60
      (demoContext [("X-API-Key", "gone"), ("X-Session-Token", "tok")] []) demoServer).2
      .session "tok" ⟨"u2", "bob", false⟩ (by decide) (by decide)).1⟩

/-- C2. When the store record found for an API key has a non-null `RevokedAt`,
`validateAPIKey` returns the revoked error whatever `ExpiresAt` and the clock are, without
scheduling a last-used update; and `authMiddleware`, given that key in `X-API-Key`, accepts
the request only under the `session` scheme. -/
theorem validateAPIKey_revoked_rejected (H : Digest) (now nowS : Time) (apiKey : String)
    (c : Context) (s : APIServer) (key : APIKey)
    (hrec : s.store.GetAPIKeyByHash (hashAPIKey H apiKey) = some key)
    (hrev : key.RevokedAt ≠ none) (hhdr : c.GetHeader "X-API-Key" = apiKey) :
    (∀ ctx, validateAPIKey H now ctx apiKey s
        = (.error "API key has been revoked", s.call (.GetAPIKeyByHash (hashAPIKey H apiKey))))
      ∧ ((authMiddleware H now nowS c s).1.Nexts = c.Nexts + 1 →
          (authMiddleware H now nowS c s).1.Get "auth_method" = some (.str "session")) := by
  have hv : ∀ ctx, validateAPIKey H now ctx apiKey s
      = (.error "API key has been revoked", s.call (.GetAPIKeyByHash (hashAPIKey H apiKey))) := by
    intro ctx
    have hsome : key.RevokedAt.isSome = true := by
      cases hr : key.RevokedAt with
      | none => exact absurd hr hrev
      | some t => rfl
    simp only [validateAPIKey, APIServer.call, hrec, hsome, ↓reduceIte]
  refine ⟨hv, ?_⟩
  intro hacc
  rcases authMiddleware_cases H now nowS c s with
    ⟨k, u, hp, hok, _⟩ | ⟨_, t, u, _, _, heq⟩ | ⟨_, _, heq⟩
  · obtain ⟨_, hk⟩ := presented_api_key c k hp
    rw [hk, hhdr, hv c.Request.Ctx] at hok
    cases hok
  · rw [heq]
    exact (get_setAuthContext c u.ID u.Username u.IsAdmin "session").1
  · rw [heq, (rejected_frame c).1] at hacc
    omega

/-- C2, worked example: the revoked key `gone` expires at 1000, the clock reads 60, the key is
refused, and the request is accepted by its session token instead. -/
theorem validateAPIKey_revoked_rejected_example :
    demoServer.store.GetAPIKeyByHash (hashAPIKey plainDigest "gone")
        = some ⟨"k2", "u1", "old", hashAPIKey plainDigest "gone", some 10, some 1000⟩
      ∧ (validateAPIKey plainDigest 60 (.request 1) "gone" demoServer).1
          = .error "API key has been revoked"
      ∧ (authMiddleware plainDigest 60 60
          (demoContext [("X-API-Key", "gone"), ("X-Session-Token", "tok")] [])
          demoServer).1.Get "auth_method" = some (.str "session") :=
  have h := validateAPIKey_revoked_rejected plainDigest 60 60 "gone"
    (demoContext [("X-API-Key", "gone"), ("X-Session-Token", "tok")] []) demoServer
    ⟨"k2", "u1", "old", hashAPIKey plainDigest "gone", some 10, some 1000⟩
    (by decide) (by decide) (by decide)
  ⟨by decide, congrArg Prod.fst (h.1 (.request 1)), h.2 (by decide)⟩

theorem not_mem_filter_ne_id (l : List HTTPSession) (id : String) :
    ∀ x ∈ l.filter (fun x => !(x.ID == id)), x.ID ≠ id := by
  intro x hx
  have := (List.mem_filter.mp hx).2
  simpa using this

/-- C3. Let the store hold a record for a session token. If the record's `ExpiresAt` is
strictly before the clock reading, `validateSession` returns the expired error, having called
`DeleteHTTPSession` with the record's ID right after the lookup, and the store it leaves holds
no session with that ID (so not this record), while no last-seen update is scheduled. If the
record is not expired, no `DeleteHTTPSession` call is made and the store is unchanged. -/
theorem validateSession_expired_deletes (H : Digest) (now : Time) (ctx : Ctx) (tok : String)
    (s : APIServer) (sess : HTTPSession)
    (hrec : s.store.GetHTTPSessionByToken (hashSessionToken H tok) = some sess) :
    (sess.ExpiresAt < now →
      (validateSession H now ctx tok s).1 = .error "session has expired"
        ∧ (validateSession H now ctx tok s).2.calls
            = s.calls ++ [.GetHTTPSessionByToken (hashSessionToken H tok),
                          .DeleteHTTPSession sess.ID]
        ∧ (validateSession H now ctx tok s).2.store = s.store.DeleteHTTPSession sess.ID
        ∧ (∀ x ∈ (validateSession H now ctx tok s).2.store.sessions, x.ID ≠ sess.ID)
        ∧ sess ∉ (validateSession H now ctx tok s).2.store.sessions
        ∧ (validateSession H now ctx tok s).2.spawned = s.spawned)
    ∧ (¬ sess.ExpiresAt < now →
      (validateSession H now ctx tok s).2.store = s.store
        ∧ (validateSession H now ctx tok s).2.calls
            = s.calls ++ [.GetHTTPSessionByToken (hashSessionToken H tok),
                          .GetUser sess.UserID]) := by
  constructor
  · intro hexp
    have hd : decide (sess.ExpiresAt < now) = true := decide_eq_true hexp
    have hval : validateSession H now ctx tok s
        = (.error "session has expired",
            { (s.call (.GetHTTPSessionByToken (hashSessionToken H tok))).call
                (.DeleteHTTPSession sess.ID) with
              store := s.store.DeleteHTTPSession sess.ID }) := by
      simp only [validateSession, APIServer.call, hrec, hd, ↓reduceIte]
    rw [hval]
    refine ⟨rfl, ?_, rfl, ?_, ?_, rfl⟩
    · simp [APIServer.call]
    · exact not_mem_filter_ne_id s.store.sessions sess.ID
    · intro hmem
      exact not_mem_filter_ne_id s.store.sessions sess.ID sess hmem rfl
  · intro hexp
    have hd : decide (sess.ExpiresAt < now) = false := decide_eq_false hexp
    simp only [validateSession, APIServer.call, APIServer.go, APIServer.Debug, hrec, hd]
    cases hu : s.store.GetUser sess.UserID <;> simp

/-- C3, worked example: at instant 60 the token `stale`, whose record `s2` expired at 50, is
refused and `s2` leaves the store. -/
theorem validateSession_expired_deletes_example :
    demoServer.store.GetHTTPSessionByToken (hashSessionToken plainDigest "stale")
        = some ⟨"s2", "u1", hashSessionToken plainDigest "stale", 50⟩
      ∧ (50 : Time) < 60
      ∧ (validateSession plainDigest 60 (.request 1) "stale" demoServer).1
          = .error "session has expired"
      ∧ (validateSession plainDigest 60 (.request 1) "stale" demoServer).2.store.sessions
          = [⟨"s1", "u2", hashSessionToken plainDigest "tok", 200⟩] :=
  ⟨by decide, by decide,
    ((validateSession_expired_deletes plainDigest 60 (.request 1) "stale" demoServer
      ⟨"s2", "u1", hashSessionToken plainDigest "stale", 50⟩ (by decide)).1 (by decide)).1,
    by decide⟩

/-- C4. `adminMiddleware` hands the request to the next handler exactly when `is_admin` is
present and is the boolean true, and then it does nothing else. When `is_admin` is absent or
is false it does not panic: it renders 403 with the body `error: admin privileges required`,
aborts the chain, and does not call the next handler. -/
theorem adminMiddleware_admits_iff_is_admin (c : Context) (s : APIServer) :
    ((∃ c2 s2, adminMiddleware c s = .ok (c2, s2) ∧ c2.Nexts = c.Nexts + 1)
        ↔ c.Get "is_admin" = some (.bool true))
    ∧ (c.Get "is_admin" = some (.bool true) → adminMiddleware c s = .ok (c.Next, s))
    ∧ (c.Get "is_admin" = none ∨ c.Get "is_admin" = some (.bool false) →
        adminMiddleware c s = .ok (adminDenied c s)
          ∧ (adminDenied c s).1.Written
              = c.Written ++ [(403, [("error", "admin privileges required")])]
          ∧ (adminDenied c s).1.Aborted = true ∧ (adminDenied c s).1.Nexts = c.Nexts
          ∧ (adminDenied c s).1.Keys = c.Keys ∧ (adminDenied c s).2.store = s.store) := by
  refine ⟨?_, ?_, ?_⟩
  · cases h : c.Get "is_admin" with
    | none =>
      simp [adminMiddleware, h, adminDenied, Context.JSON, Context.Abort]
    | some v =>
      cases v with
      | str x => simp [adminMiddleware, h]
      | bool b =>
        cases b <;>
          simp [adminMiddleware, h, adminDenied, Context.JSON, Context.Abort, Context.Next]
  · intro h
    simp [adminMiddleware, h]
  · intro h
    have hfr : (adminDenied c s).1.Written
          = c.Written ++ [(403, [("error", "admin privileges required")])]
        ∧ (adminDenied c s).1.Aborted = true ∧ (adminDenied c s).1.Nexts = c.Nexts
        ∧ (adminDenied c s).1.Keys = c.Keys ∧ (adminDenied c s).2.store = s.store := by
      simp [adminDenied, Context.JSON, Context.Abort, StatusForbidden, APIServer.Warn]
    rcases h with h | h
    · exact ⟨by simp [adminMiddleware, h], hfr⟩
    · exact ⟨by simp [adminMiddleware, h], hfr⟩

/-- C5. `validateBearerToken` returns an error and no user for every token and server state,
and leaves the state alone. So a request that `authMiddleware` accepts never carries the
`auth_method` `bearer`, and a request that presents neither an API key nor a session token is
rejected, whatever its `Authorization` header. -/
theorem validateBearerToken_fails_closed (H : Digest) (nowK nowS : Time) (tok : String)
    (c : Context) (s : APIServer) :
    (∀ ctx, validateBearerToken ctx tok s
        = (.error "JWT authentication not yet implemented", s))
    ∧ ((authMiddleware H nowK nowS c s).1.Nexts = c.Nexts + 1 →
        (authMiddleware H nowK nowS c s).1.Get "auth_method" = some (.str "api_key")
          ∨ (authMiddleware H nowK nowS c s).1.Get "auth_method" = some (.str "session"))
    ∧ ((authMiddleware H nowK nowS c s).1.Nexts = c.Nexts + 1 →
        (authMiddleware H nowK nowS c s).1.Get "auth_method" ≠ some (.str "bearer"))
    ∧ (presented .api_key c = none ∧ presented .session c = none →
        (authMiddleware H nowK nowS c s).1 = rejected c) := by
  have hmeth : (authMiddleware H nowK nowS c s).1.Nexts = c.Nexts + 1 →
      (authMiddleware H nowK nowS c s).1.Get "auth_method" = some (.str "api_key")
        ∨ (authMiddleware H nowK nowS c s).1.Get "auth_method" = some (.str "session") := by
    intro hacc
    rcases authMiddleware_cases H nowK nowS c s with
      ⟨k, u, _, _, heq⟩ | ⟨_, t, u, _, _, heq⟩ | ⟨_, _, heq⟩
    · rw [heq]
      exact Or.inl (get_setAuthContext c u.ID u.Username u.IsAdmin "api_key").1
    · rw [heq]
      exact Or.inr (get_setAuthContext c u.ID u.Username u.IsAdmin "session").1
    · rw [heq, (rejected_frame c).1] at hacc
      omega
  refine ⟨fun _ => rfl, hmeth, ?_, ?_⟩
  · intro hacc hb
    rcases hmeth hacc with h | h
    · rw [h] at hb
      exact absurd hb (by decide)
    · rw [h] at hb
      exact absurd hb (by decide)
  · intro hnone
    rcases authMiddleware_cases H nowK nowS c s with
      ⟨k, u, hp, _, _⟩ | ⟨_, t, u, hp, _, _⟩ | ⟨_, _, heq⟩
    · rw [hnone.1] at hp
      cases hp
    · rw [hnone.2] at hp
      cases hp
    · exact heq

/-- C6. Whenever no validator succeeds for a request — each scheme is either not presented
or its validator returns an error — `authMiddleware` renders exactly one response, 401 with
the body `error: authentication required`, aborts the chain and does not call the next
handler. Two such requests, on any server states, therefore get the same response. -/
theorem authMiddleware_rejects_uniformly (H : Digest) (nowK nowS : Time)
    (c1 c2 : Context) (s1 s2 : APIServer)
    (h1 : ∀ m tok, presented m c1 = some tok →
      ∃ e, validatorResult H nowK nowS c1.Request.Ctx m tok s1 = .error e)
    (h2 : ∀ m tok, presented m c2 = some tok →
      ∃ e, validatorResult H nowK nowS c2.Request.Ctx m tok s2 = .error e) :
    (authMiddleware H nowK nowS c1 s1).1.Written
        = c1.Written ++ [(401, [("error", "authentication required")])]
    ∧ (authMiddleware H nowK nowS c2 s2).1.Written
        = c2.Written ++ [(401, [("error", "authentication required")])]
    ∧ (authMiddleware H nowK nowS c1 s1).1.Aborted = true
    ∧ (authMiddleware H nowK nowS c2 s2).1.Aborted = true
    ∧ (authMiddleware H nowK nowS c1 s1).1.Nexts = c1.Nexts
    ∧ (authMiddleware H nowK nowS c2 s2).1.Nexts = c2.Nexts
    ∧ (authMiddleware H nowK nowS c1 s1).1.Keys = c1.Keys
    ∧ (authMiddleware H nowK nowS c2 s2).1.Keys = c2.Keys := by
  have key : ∀ (c : Context) (s : APIServer),
      (∀ m tok, presented m c = some tok →
        ∃ e, validatorResult H nowK nowS c.Request.Ctx m tok s = .error e) →
      (authMiddleware H nowK nowS c s).1 = rejected c := by
    intro c s h
    rcases authMiddleware_cases H nowK nowS c s with
      ⟨k, u, hp, hok, _⟩ | ⟨_, t, u, hp, hok, _⟩ | ⟨_, _, heq⟩
    · obtain ⟨e, he⟩ := h .api_key k hp
      simp only [validatorResult] at he
      rw [he] at hok
      cases hok
    · obtain ⟨e, he⟩ := h .session t hp
      simp only [validatorResult] at he
      rw [he] at hok
      cases hok
    · exact heq
  rw [key c1 s1 h1, key c2 s2 h2]
  have f1 := rejected_frame c1
  have f2 := rejected_frame c2
  exact ⟨f1.2.2.2, f2.2.2.2, f1.2.1, f2.2.1, f1.1, f2.1, f1.2.2.1, f2.2.2.1⟩

/-- C6, worked example: a request with a revoked API key and a request with no credential at
all get the same response. -/
theorem authMiddleware_rejects_uniformly_example :
    (authMiddleware plainDigest 60 60 (demoContext [("X-API-Key", "gone")] [])
        demoServer).1.Written
      = (authMiddleware plainDigest 60 60 (demoContext [] []) demoServer).1.Written :=
  have h := authMiddleware_rejects_uniformly plainDigest 60 60
    (demoContext [("X-API-Key", "gone")] []) (demoContext [] []) demoServer demoServer
    (by
      intro m tok hp
      cases m with
      | api_key =>
        have hk : presented .api_key (demoContext [("X-API-Key", "gone")] []) = some "gone" := by
          decide
        rw [hk] at hp
        cases hp
        exact ⟨"API key has been revoked", by decide⟩
      | session =>
        have hk : presented .session (demoContext [("X-API-Key", "gone")] []) = none := by
          decide
        rw [hk] at hp
        cases hp
      | bearer => exact ⟨"JWT authentication not yet implemented", rfl⟩)
    (by
      intro m tok hp
      cases m with
      | api_key =>
        have hk : presented .api_key (demoContext [] []) = none := by decide
        rw [hk] at hp
        cases hp
      | session =>
        have hk : presented .session (demoContext [] []) = none := by decide
        rw [hk] at hp
        cases hp
      | bearer => exact ⟨"JWT authentication not yet implemented", rfl⟩)
  h.1.trans h.2.1.symm

/-- C5, worked example: a request whose only credential is `Authorization: Bearer abc` gets
the failure path. -/
theorem validateBearerToken_fails_closed_example :
    (authMiddleware plainDigest 60 60 (demoContext [("Authorization", "Bearer abc")] [])
        demoServer).1
      = rejected (demoContext [("Authorization", "Bearer abc")] []) :=
  (validateBearerToken_fails_closed plainDigest 60 60 "abc"
    (demoContext [("Authorization", "Bearer abc")] []) demoServer).2.2.2
    ⟨by decide, by decide⟩

/-- C4, worked example: on a context where no identity was ever set the admin gate answers
403 and aborts. -/
theorem adminMiddleware_admits_iff_is_admin_example :
    adminMiddleware (demoContext [] []) demoServer
      = .ok (adminDenied (demoContext [] []) demoServer) :=
  ((adminMiddleware_admits_iff_is_admin (demoContext [] []) demoServer).2.2
    (Or.inl (by decide))).1

/-- What `validateAPIKey` returns and leaves, branch by branch. -/
theorem validateAPIKey_eq (H : Digest) (now : Time) (ctx : Ctx) (k : String) (s : APIServer) :
    validateAPIKey H now ctx k s =
      match s.store.GetAPIKeyByHash (hashAPIKey H k) with
      | none => (.error "invalid API key", s.call (.GetAPIKeyByHash (hashAPIKey H k)))
      | some key =>
        if key.RevokedAt.isSome then
          (.error "API key has been revoked", s.call (.GetAPIKeyByHash (hashAPIKey H k)))
        else if expiredAt now key.ExpiresAt then
          (.error "API key has expired", s.call (.GetAPIKeyByHash (hashAPIKey H k)))
        else
          match s.store.GetUser key.UserID with
          | none =>
            (.error "user not found for API key",
              (((s.call (.GetAPIKeyByHash (hashAPIKey H k))).go ctx
                (.UpdateAPIKeyLastUsed key.ID)).call (.GetUser key.UserID)))
          | some user =>
            (.ok user,
              (((s.call (.GetAPIKeyByHash (hashAPIKey H k))).go ctx
                (.UpdateAPIKeyLastUsed key.ID)).call (.GetUser key.UserID)).Debug
                ("API key authenticated: user=" ++ user.Username ++ " key=" ++ key.Name)) := by
  simp only [validateAPIKey, APIServer.call, APIServer.go, APIServer.Debug]

/-- What `validateSession` returns and leaves, branch by branch. -/
theorem validateSession_eq (H : Digest) (now : Time) (ctx : Ctx) (t : String) (s : APIServer) :
    validateSession H now ctx t s =
      match s.store.GetHTTPSessionByToken (hashSessionToken H t) with
      | none =>
        (.error "invalid session token", s.call (.GetHTTPSessionByToken (hashSessionToken H t)))
      | some session =>
        if decide (session.ExpiresAt < now) then
          (.error "session has expired",
            { (s.call (.GetHTTPSessionByToken (hashSessionToken H t))).call
                (.DeleteHTTPSession session.ID) with
              store := s.store.DeleteHTTPSession session.ID })
        else
          match s.store.GetUser session.UserID with
          | none =>
            (.error "user not found for session",
              (((s.call (.GetHTTPSessionByToken (hashSessionToken H t))).go ctx
                (.UpdateHTTPSessionLastSeen session.ID)).call (.GetUser session.UserID)))
          | some user =>
            (.ok user,
              (((s.call (.GetHTTPSessionByToken (hashSessionToken H t))).go ctx
                (.UpdateHTTPSessionLastSeen session.ID)).call (.GetUser session.UserID)).Debug
                ("Session authenticated: user=" ++ user.Username)) := by
  simp only [validateSession, APIServer.call, APIServer.go, APIServer.Debug]

theorem validateAPIKey_spawned (H : Digest) (now : Time) (ctx : Ctx) (k : String)
    (s : APIServer) :
    (validateAPIKey H now ctx k s).2.spawned = s.spawned ++ apiKeyUpdates H now ctx k s.store := by
  rw [validateAPIKey_eq]
  simp only [apiKeyUpdates, APIKey.passes, APIServer.call, APIServer.go, APIServer.Debug]
  cases s.store.GetAPIKeyByHash (hashAPIKey H k) with
  | none => simp
  | some key =>
    simp only
    by_cases h1 : key.RevokedAt.isSome = true
    · simp [h1]
    · by_cases h2 : expiredAt now key.ExpiresAt = true
      · simp [h1, h2]
      · cases s.store.GetUser key.UserID <;> simp [h1, h2]

theorem validateSession_spawned (H : Digest) (now : Time) (ctx : Ctx) (t : String)
    (s : APIServer) :
    (validateSession H now ctx t s).2.spawned
      = s.spawned ++ sessionUpdates H now ctx t s.store := by
  rw [validateSession_eq]
  simp only [sessionUpdates, HTTPSession.passes, APIServer.call, APIServer.go, APIServer.Debug]
  cases s.store.GetHTTPSessionByToken (hashSessionToken H t) with
  | none => simp
  | some session =>
    simp only
    by_cases h1 : session.ExpiresAt < now
    · simp [h1]
    · cases s.store.GetUser session.UserID <;> simp [h1]

theorem validateAPIKey_calls (H : Digest) (now : Time) (ctx : Ctx) (k : String)
    (s : APIServer) :
    ∃ new, (validateAPIKey H now ctx k s).2.calls = s.calls ++ new
      ∧ ∀ c ∈ new, c.isUpdate = false := by
  rw [validateAPIKey_eq]
  simp only [APIServer.call, APIServer.go, APIServer.Debug]
  cases s.store.GetAPIKeyByHash (hashAPIKey H k) with
  | none => exact ⟨[.GetAPIKeyByHash (hashAPIKey H k)], rfl, by simp [StoreCall.isUpdate]⟩
  | some key =>
    simp only
    split
    · exact ⟨[.GetAPIKeyByHash (hashAPIKey H k)], rfl, by simp [StoreCall.isUpdate]⟩
    · split
      · exact ⟨[.GetAPIKeyByHash (hashAPIKey H k)], rfl, by simp [StoreCall.isUpdate]⟩
      · refine ⟨[.GetAPIKeyByHash (hashAPIKey H k), .GetUser key.UserID], ?_,
          by simp [StoreCall.isUpdate]⟩
        cases s.store.GetUser key.UserID <;> simp

theorem validateSession_calls (H : Digest) (now : Time) (ctx : Ctx) (t : String)
    (s : APIServer) :
    ∃ new, (validateSession H now ctx t s).2.calls = s.calls ++ new
      ∧ ∀ c ∈ new, c.isUpdate = false := by
  rw [validateSession_eq]
  simp only [APIServer.call, APIServer.go, APIServer.Debug]
  cases s.store.GetHTTPSessionByToken (hashSessionToken H t) with
  | none =>
    exact ⟨[.GetHTTPSessionByToken (hashSessionToken H t)], rfl, by simp [StoreCall.isUpdate]⟩
  | some session =>
    simp only
    split
    · exact ⟨[.GetHTTPSessionByToken (hashSessionToken H t), .DeleteHTTPSession session.ID],
        by simp, by simp [StoreCall.isUpdate]⟩
    · refine ⟨[.GetHTTPSessionByToken (hashSessionToken H t), .GetUser session.UserID], ?_,
        by simp [StoreCall.isUpdate]⟩
      cases s.store.GetUser session.UserID <;> simp

/-- C13, as stated, fails: the key `lost` is found, not revoked and not expired, but its owner
`u9` is not in the store; `validateAPIKey` returns the user-not-found failure and has already
started the last-used update of key `k3`. -/
theorem validateAPIKey_updates_before_user_lookup :
    (validateAPIKey plainDigest 60 (.request 1) "lost" demoServer).1
        = .error "user not found for API key"
    ∧ (validateAPIKey plainDigest 60 (.request 1) "lost" demoServer).2.spawned
        = [⟨.request 1, .UpdateAPIKeyLastUsed "k3"⟩] := by
  decide

/-- C13, amended. `validateAPIKey` and `validateSession` make no timestamp update on the
calling goroutine, and the goroutines they start are: none when the credential is unknown,
revoked or expired, and exactly one update, for the ID of the record found, once the record
has passed these checks. A call that succeeds has therefore started exactly one update for the
validated credential's ID. -/
theorem validators_schedule_update_after_checks (H : Digest) (now : Time) (ctx : Ctx)
    (cred : String) (s : APIServer) :
    ((validateAPIKey H now ctx cred s).2.spawned
        = s.spawned ++ apiKeyUpdates H now ctx cred s.store
      ∧ ∃ new, (validateAPIKey H now ctx cred s).2.calls = s.calls ++ new
          ∧ ∀ c ∈ new, c.isUpdate = false)
    ∧ ((validateSession H now ctx cred s).2.spawned
        = s.spawned ++ sessionUpdates H now ctx cred s.store
      ∧ ∃ new, (validateSession H now ctx cred s).2.calls = s.calls ++ new
          ∧ ∀ c ∈ new, c.isUpdate = false)
    ∧ (s.store.GetAPIKeyByHash (hashAPIKey H cred) = none →
        apiKeyUpdates H now ctx cred s.store = [])
    ∧ (∀ key, s.store.GetAPIKeyByHash (hashAPIKey H cred) = some key →
        key.RevokedAt ≠ none ∨ (∃ e, key.ExpiresAt = some e ∧ e < now) →
        apiKeyUpdates H now ctx cred s.store = [])
    ∧ (s.store.GetHTTPSessionByToken (hashSessionToken H cred) = none →
        sessionUpdates H now ctx cred s.store = [])
    ∧ (∀ session, s.store.GetHTTPSessionByToken (hashSessionToken H cred) = some session →
        session.ExpiresAt < now → sessionUpdates H now ctx cred s.store = [])
    ∧ (∀ u, (validateAPIKey H now ctx cred s).1 = .ok u →
        ∃ key, s.store.GetAPIKeyByHash (hashAPIKey H cred) = some key
          ∧ (validateAPIKey H now ctx cred s).2.spawned
              = s.spawned ++ [⟨ctx, .UpdateAPIKeyLastUsed key.ID⟩])
    ∧ (∀ u, (validateSession H now ctx cred s).1 = .ok u →
        ∃ session, s.store.GetHTTPSessionByToken (hashSessionToken H cred) = some session
          ∧ (validateSession H now ctx cred s).2.spawned
              = s.spawned ++ [⟨ctx, .UpdateHTTPSessionLastSeen session.ID⟩]) := by
  refine ⟨⟨validateAPIKey_spawned H now ctx cred s, validateAPIKey_calls H now ctx cred s⟩,
    ⟨validateSession_spawned H now ctx cred s, validateSession_calls H now ctx cred s⟩,
    ?_, ?_, ?_, ?_, ?_, ?_⟩
  · intro h
    simp only [apiKeyUpdates, h]
  · intro key h hbad
    simp only [apiKeyUpdates, h, APIKey.passes]
    rcases hbad with hrev | ⟨e, he, hlt⟩
    · have hsome : key.RevokedAt.isSome = true := by
        cases hr : key.RevokedAt with
        | none => exact absurd hr hrev
        | some t => rfl
      simp [hsome]
    · simp [he, expiredAt, hlt]
  · intro h
    simp only [sessionUpdates, h]
  · intro session h hlt
    simp [sessionUpdates, h, HTTPSession.passes, hlt]
  · intro u hu
    rw [validateAPIKey_eq] at hu ⊢
    cases hk : s.store.GetAPIKeyByHash (hashAPIKey H cred) with
    | none =>
      rw [hk] at hu
      cases hu
    | some key =>
      rw [hk] at hu
      refine ⟨key, rfl, ?_⟩
      simp only at hu ⊢
      by_cases h1 : key.RevokedAt.isSome = true
      · simp [h1] at hu
      · by_cases h2 : expiredAt now key.ExpiresAt = true
        · simp [h1, h2] at hu
        · cases hg : s.store.GetUser key.UserID with
          | none => simp [h1, h2, hg] at hu
          | some user =>
            simp [h1, h2, APIServer.call, APIServer.go, APIServer.Debug]
  · intro u hu
    rw [validateSession_eq] at hu ⊢
    cases hk : s.store.GetHTTPSessionByToken (hashSessionToken H cred) with
    | none =>
      rw [hk] at hu
      cases hu
    | some session =>
      rw [hk] at hu
      refine ⟨session, rfl, ?_⟩
      simp only at hu ⊢
      by_cases h1 : session.ExpiresAt < now
      · simp [h1] at hu
      · cases hg : s.store.GetUser session.UserID with
        | none => simp [h1, hg] at hu
        | some user =>
          simp [h1, APIServer.call, APIServer.go, APIServer.Debug]

/-- C13, worked example: the revoked key `gone` starts no update; the live key `live`
succeeds and starts exactly one, for `k1`. -/
theorem validators_schedule_update_after_checks_example :
    (validateAPIKey plainDigest 60 (.request 1) "gone" demoServer).2.spawned = []
    ∧ (validateAPIKey plainDigest 60 (.request 1) "live" demoServer).1
        = .ok ⟨"u1", "alice", true⟩
    ∧ (validateAPIKey plainDigest 60 (.request 1) "live" demoServer).2.spawned
        = [⟨.request 1, .UpdateAPIKeyLastUsed "k1"⟩] :=
  have h := validators_schedule_update_after_checks plainDigest 60 (.request 1) "live"
    demoServer
  have g := validators_schedule_update_after_checks plainDigest 60 (.request 1) "gone"
    demoServer
  ⟨by rw [g.1.1]; decide, by decide, by rw [h.1.1]; decide⟩

/-- C18. `validateAPIKey` returns user `u` exactly when the store has a record under the hex
SHA-256 of the key, the record's `RevokedAt` is null, its `ExpiresAt` is null or not before
`now` (so `now` equal to `ExpiresAt` is accepted), and the store's user for the record's
`UserID` is `u`. When the lookup of the record fails, the result is the invalid-key error
after that single lookup call, which is not repeated. -/
theorem validateAPIKey_succeeds_iff (H : Digest) (now : Time) (ctx : Ctx) (apiKey : String)
    (s : APIServer) (u : User) :
    ((validateAPIKey H now ctx apiKey s).1 = .ok u ↔
      ∃ key, s.store.GetAPIKeyByHash (hexEncodeToString (H (bytesOf apiKey))) = some key
        ∧ key.RevokedAt = none
        ∧ (key.ExpiresAt = none ∨ ∃ e, key.ExpiresAt = some e ∧ now ≤ e)
        ∧ s.store.GetUser key.UserID = some u)
    ∧ hashAPIKey H apiKey = hexEncodeToString (H (bytesOf apiKey))
    ∧ (s.store.GetAPIKeyByHash (hashAPIKey H apiKey) = none →
        validateAPIKey H now ctx apiKey s
          = (.error "invalid API key", s.call (.GetAPIKeyByHash (hashAPIKey H apiKey)))
        ∧ (validateAPIKey H now ctx apiKey s).2.calls
          = s.calls ++ [.GetAPIKeyByHash (hashAPIKey H apiKey)])
    ∧ expiredAt now (some now) = false := by
  refine ⟨?_, rfl, ?_, by simp [expiredAt]⟩
  · rw [validateAPIKey_eq]
    show _ ↔ ∃ key, s.store.GetAPIKeyByHash (hashAPIKey H apiKey) = some key ∧ _
    cases hk : s.store.GetAPIKeyByHash (hashAPIKey H apiKey) with
    | none => simp
    | some key =>
      simp only [Option.some.injEq, exists_eq_left']
      cases hr : key.RevokedAt with
      | some t => simp
      | none =>
        cases he : key.ExpiresAt with
        | none =>
          cases hg : s.store.GetUser key.UserID <;> simp [expiredAt]
        | some e =>
          by_cases hlt : e < now
          · have : ¬ now ≤ e := not_le.mpr hlt
            simp [expiredAt, hlt, this]
          · have : now ≤ e := not_lt.mp hlt
            cases hg : s.store.GetUser key.UserID <;> simp [expiredAt, hlt, this]
  · intro hk
    rw [validateAPIKey_eq, hk]
    exact ⟨rfl, rfl⟩

/-- C18, worked example: the key `live` expires at instant 100; at 100 it is accepted, at 101
it is refused. -/
theorem validateAPIKey_succeeds_iff_example :
    (validateAPIKey plainDigest 100 (.request 1) "live" demoServer).1
        = .ok ⟨"u1", "alice", true⟩
    ∧ (validateAPIKey plainDigest 101 (.request 1) "live" demoServer).1
        = .error "API key has expired" :=
  ⟨(validateAPIKey_succeeds_iff plainDigest 100 (.request 1) "live" demoServer
      ⟨"u1", "alice", true⟩).1.mpr
      ⟨⟨"k1", "u1", "ci", hashAPIKey plainDigest "live", none, some 100⟩,
        by decide, rfl, Or.inr ⟨100, rfl, le_refl _⟩, by decide⟩,
    by decide⟩

theorem validateAPIKey_error_logs (H : Digest) (now : Time) (ctx : Ctx) (k : String)
    (s : APIServer) (e : String) (h : (validateAPIKey H now ctx k s).1 = .error e) :
    (validateAPIKey H now ctx k s).2.logs = s.logs := by
  rw [validateAPIKey_eq] at h ⊢
  cases hk : s.store.GetAPIKeyByHash (hashAPIKey H k) with
  | none => rfl
  | some key =>
    rw [hk] at h
    simp only at h ⊢
    by_cases h1 : key.RevokedAt.isSome = true
    · rw [if_pos h1]
      rfl
    · rw [if_neg h1] at h ⊢
      by_cases h2 : expiredAt now key.ExpiresAt = true
      · rw [if_pos h2]
        rfl
      · rw [if_neg h2] at h ⊢
        cases hg : s.store.GetUser key.UserID with
        | none => rfl
        | some user =>
          rw [hg] at h
          cases h

theorem validateSession_error_logs (H : Digest) (now : Time) (ctx : Ctx) (t : String)
    (s : APIServer) (e : String) (h : (validateSession H now ctx t s).1 = .error e) :
    (validateSession H now ctx t s).2.logs = s.logs := by
  rw [validateSession_eq] at h ⊢
  cases hk : s.store.GetHTTPSessionByToken (hashSessionToken H t) with
  | none => rfl
  | some session =>
    rw [hk] at h
    simp only at h ⊢
    by_cases h1 : decide (session.ExpiresAt < now) = true
    · rw [if_pos h1]
      rfl
    · rw [if_neg h1] at h ⊢
      cases hg : s.store.GetUser session.UserID with
      | none => rfl
      | some user =>
        rw [hg] at h
        cases h

theorem authFailed_logs (c : Context) (s : APIServer) :
    (authFailed c s).2.logs = s.logs ++ [failureEntry c.Request] := rfl

theorem authSession_fail_logs (H : Digest) (now : Time) (c : Context) (s : APIServer)
    (hv : ∀ t, presented .session c = some t →
      ∃ e, (validateSession H now c.Request.Ctx t s).1 = .error e) :
    (authSession H now c s).2.logs = s.logs ++ [failureEntry c.Request] := by
  simp only [authSession]
  by_cases hne : sessionTokenOf c ≠ ""
  · rw [if_pos hne]
    obtain ⟨e, he⟩ := hv (sessionTokenOf c) (by simp only [presented]; rw [if_pos hne])
    have hl := validateSession_error_logs H now c.Request.Ctx (sessionTokenOf c) s e he
    rcases hr : validateSession H now c.Request.Ctx (sessionTokenOf c) s with ⟨res, s1⟩
    rw [hr] at he hl
    simp only at he hl
    subst he
    simp only [authBearer_eq, authFailed_logs, hl]
  · rw [if_neg hne]
    simp only [authBearer_eq, authFailed_logs]

theorem authMiddleware_fail_logs (H : Digest) (nowK nowS : Time) (c : Context)
    (s : APIServer)
    (h : ∀ m tok, presented m c = some tok →
      ∃ e, validatorResult H nowK nowS c.Request.Ctx m tok s = .error e) :
    (authMiddleware H nowK nowS c s).2.logs = s.logs ++ [failureEntry c.Request] := by
  have hS : ∀ (s1 : APIServer), s1.store = s.store → s1.logs = s.logs →
      (authSession H nowS c s1).2.logs = s.logs ++ [failureEntry c.Request] := by
    intro s1 hst hlg
    rw [← hlg]
    apply authSession_fail_logs
    intro t hp
    rw [validateSession_fst_congr H nowS c.Request.Ctx t s1 s hst]
    exact h .session t hp
  simp only [authMiddleware]
  by_cases hne : c.GetHeader "X-API-Key" ≠ ""
  · rw [if_pos hne]
    obtain ⟨e, he⟩ := h .api_key (c.GetHeader "X-API-Key")
      (by simp only [presented]; rw [if_pos hne])
    simp only [validatorResult] at he
    have hl := validateAPIKey_error_logs H nowK c.Request.Ctx (c.GetHeader "X-API-Key") s e he
    have hst := validateAPIKey_store H nowK c.Request.Ctx (c.GetHeader "X-API-Key") s
    rcases hr : validateAPIKey H nowK c.Request.Ctx (c.GetHeader "X-API-Key") s with ⟨res, s1⟩
    rw [hr] at he hl hst
    simp only at he hl hst
    subst he
    exact hS s1 hst hl
  · rw [if_neg hne]
    exact hS s rfl rfl

/-- C17, as stated, fails: a request with the revoked key `gone` and a request with the
unknown key `nope` fail for different kinds, and the log entries emitted while handling them
are the same single line. -/
theorem failure_kind_not_in_log :
    (validateAPIKey plainDigest 60 (.request 1) "gone" demoServer).1
        = .error "API key has been revoked"
    ∧ (validateAPIKey plainDigest 60 (.request 1) "nope" demoServer).1
        = .error "invalid API key"
    ∧ (authMiddleware plainDigest 60 60 (demoContext [("X-API-Key", "gone")] [])
        demoServer).2.logs
      = [⟨Level.warn, "Authentication failed for GET /api/v1/servers from 10.0.0.7"⟩]
    ∧ (authMiddleware plainDigest 60 60 (demoContext [("X-API-Key", "nope")] [])
        demoServer).2.logs
      = [⟨Level.warn, "Authentication failed for GET /api/v1/servers from 10.0.0.7"⟩] := by
  decide

/-- C17, amended. When authentication fails, the log receives exactly one entry: the warning
made of the method, the path and the client address of the request. It holds no credential
material and no failure kind: two failing requests with the same method, path and client
address leave the same entry, whatever credentials they presented and whatever they failed
for. -/
theorem authMiddleware_logs_one_generic_warning (H : Digest) (nowK nowS : Time)
    (c1 c2 : Context) (s1 s2 : APIServer)
    (h1 : ∀ m tok, presented m c1 = some tok →
      ∃ e, validatorResult H nowK nowS c1.Request.Ctx m tok s1 = .error e)
    (h2 : ∀ m tok, presented m c2 = some tok →
      ∃ e, validatorResult H nowK nowS c2.Request.Ctx m tok s2 = .error e) :
    (authMiddleware H nowK nowS c1 s1).2.logs = s1.logs ++ [failureEntry c1.Request]
    ∧ (authMiddleware H nowK nowS c2 s2).2.logs = s2.logs ++ [failureEntry c2.Request]
    ∧ failureEntry c1.Request
        = ⟨Level.warn, "Authentication failed for " ++ c1.Request.Method ++ " "
            ++ c1.Request.Path ++ " from " ++ c1.Request.ClientIP⟩
    ∧ (c1.Request.Method = c2.Request.Method → c1.Request.Path = c2.Request.Path →
        c1.Request.ClientIP = c2.Request.ClientIP →
        failureEntry c1.Request = failureEntry c2.Request) := by
  refine ⟨authMiddleware_fail_logs H nowK nowS c1 s1 h1,
    authMiddleware_fail_logs H nowK nowS c2 s2 h2, rfl, ?_⟩
  intro hm hp hi
  simp only [failureEntry, hm, hp, hi]

/-- C17, worked example: an expired session token and a key whose user is gone, sent from the
same address to the same path, leave the same log entry. -/
theorem authMiddleware_logs_one_generic_warning_example :
    (authMiddleware plainDigest 60 60 (demoContext [("X-Session-Token", "stale")] [])
        demoServer).2.logs
      = (authMiddleware plainDigest 60 60 (demoContext [("X-API-Key", "lost")] [])
        demoServer).2.logs :=
  have h := authMiddleware_logs_one_generic_warning plainDigest 60 60
    (demoContext [("X-Session-Token", "stale")] []) (demoContext [("X-API-Key", "lost")] [])
    demoServer demoServer
    (by
      intro m tok hp
      cases m with
      | api_key =>
        have hk : presented .api_key (demoContext [("X-Session-Token", "stale")] []) = none := by
          decide
        rw [hk] at hp
        cases hp
      | session =>
        have hk : presented .session (demoContext [("X-Session-Token", "stale")] [])
            = some "stale" := by decide
        rw [hk] at hp
        cases hp
        exact ⟨"session has expired", by decide⟩
      | bearer => exact ⟨"JWT authentication not yet implemented", rfl⟩)
    (by
      intro m tok hp
      cases m with
      | api_key =>
        have hk : presented .api_key (demoContext [("X-API-Key", "lost")] []) = some "lost" := by
          decide
        rw [hk] at hp
        cases hp
        exact ⟨"user not found for API key", by decide⟩
      | session =>
        have hk : presented .session (demoContext [("X-API-Key", "lost")] []) = none := by
          decide
        rw [hk] at hp
        cases hp
      | bearer => exact ⟨"JWT authentication not yet implemented", rfl⟩)
  h.1.trans h.2.1.symm

/-- C14, as stated, fails: for a request with the live key `live`, the goroutine that
`validateAPIKey` starts holds the context of the request itself, which is cancelled when the
request's context is, and when the update fails in it, no line is logged. -/
theorem update_runs_under_request_context :
    (authMiddleware plainDigest 60 60 (demoContext [("X-API-Key", "live")] [])
        demoServer).2.spawned
      = [⟨(demoContext [("X-API-Key", "live")] []).Request.Ctx, .UpdateAPIKeyLastUsed "k1"⟩]
    ∧ (demoContext [("X-API-Key", "live")] []).Request.Ctx.cancelledWith
        (demoContext [("X-API-Key", "live")] []).Request.Ctx = true
    ∧ (Goroutine.run ⟨.request 1, .UpdateAPIKeyLastUsed "k1"⟩ (some "context canceled")
        (authMiddleware plainDigest 60 60 (demoContext [("X-API-Key", "live")] [])
          demoServer).2).logs
      = (authMiddleware plainDigest 60 60 (demoContext [("X-API-Key", "live")] [])
          demoServer).2.logs := by
  decide

/-- C14, amended. The timestamp update of `validateAPIKey` and `validateSession` is started
as a goroutine of its own and is not among the store calls the validator makes before it
returns; when the goroutine runs, it makes that one store call and discards what the call
returns: whether the update failed or not, nothing is logged and the store calls, goroutines
and log are otherwise as before. -/
theorem background_update_fire_and_forget (H : Digest) (now : Time) (ctx : Ctx)
    (cred : String) (s s2 : APIServer) (g : Goroutine) (err : Option String) :
    (∀ x ∈ apiKeyUpdates H now ctx cred s.store, x.call.isUpdate = true)
    ∧ (∀ x ∈ sessionUpdates H now ctx cred s.store, x.call.isUpdate = true)
    ∧ (validateAPIKey H now ctx cred s).2.spawned
        = s.spawned ++ apiKeyUpdates H now ctx cred s.store
    ∧ (validateSession H now ctx cred s).2.spawned
        = s.spawned ++ sessionUpdates H now ctx cred s.store
    ∧ (∃ new, (validateAPIKey H now ctx cred s).2.calls = s.calls ++ new
        ∧ ∀ c ∈ new, c.isUpdate = false)
    ∧ (∃ new, (validateSession H now ctx cred s).2.calls = s.calls ++ new
        ∧ ∀ c ∈ new, c.isUpdate = false)
    ∧ (g.run err s2).logs = s2.logs
    ∧ (g.run err s2).calls = s2.calls ++ [g.call]
    ∧ (g.run err s2).spawned = s2.spawned
    ∧ g.run err s2 = g.run none s2 := by
  refine ⟨?_, ?_, validateAPIKey_spawned H now ctx cred s,
    validateSession_spawned H now ctx cred s, validateAPIKey_calls H now ctx cred s,
    validateSession_calls H now ctx cred s, rfl, rfl, rfl, rfl⟩
  · intro x hx
    simp only [apiKeyUpdates] at hx
    cases hk : s.store.GetAPIKeyByHash (hashAPIKey H cred) with
    | none => simp [hk] at hx
    | some key =>
      rw [hk] at hx
      simp only at hx
      split at hx
      · simp only [List.mem_singleton] at hx
        subst hx
        rfl
      · simp at hx
  · intro x hx
    simp only [sessionUpdates] at hx
    cases hk : s.store.GetHTTPSessionByToken (hashSessionToken H cred) with
    | none => simp [hk] at hx
    | some session =>
      rw [hk] at hx
      simp only at hx
      split at hx
      · simp only [List.mem_singleton] at hx
        subst hx
        rfl
      · simp at hx

end Api

namespace Recording

/-! ### The session recorder -/

theorem lookup_filter_ne {α : Type} (m : List (String × α)) (k j : String) (h : j ≠ k) :
    (m.filter (fun kv => !(kv.1 == k))).lookup j = m.lookup j := by
  induction m with
  | nil => rfl
  | cons x xs ih =>
    obtain ⟨a, v⟩ := x
    by_cases ha : a = k
    · subst ha
      have hj : (j == a) = false := by simpa using h
      simp [List.filter, List.lookup, hj, ih]
    · have hf : (!(a == k)) = true := by simpa using ha
      simp only [List.filter, hf, List.lookup]
      cases hja : (j == a) <;> simp [ih]

theorem lookup_filter_self {α : Type} (m : List (String × α)) (k : String) :
    (m.filter (fun kv => !(kv.1 == k))).lookup k = none := by
  induction m with
  | nil => rfl
  | cons x xs ih =>
    obtain ⟨a, v⟩ := x
    by_cases ha : a = k
    · subst ha
      simp [List.filter, ih]
    · have hf : (!(a == k)) = true := by simpa using ha
      have hk : (k == a) = false := by simpa using (Ne.symm ha)
      simp [List.filter, hf, List.lookup, hk, ih]

theorem lookup_setKey_self {α : Type} (m : List (String × α)) (k : String) (v : α) :
    (setKey m k v).lookup k = some v := by
  simp [setKey, List.lookup]

theorem lookup_setKey_ne {α : Type} (m : List (String × α)) (k j : String) (v : α)
    (h : j ≠ k) : (setKey m k v).lookup j = m.lookup j := by
  have hj : (j == k) = false := by simpa using h
  simp only [setKey, List.lookup, hj]
  exact lookup_filter_ne m k j h

theorem lookup_deleteKey_self {α : Type} (m : List (String × α)) (k : String) :
    (deleteKey m k).lookup k = none :=
  lookup_filter_self m k

theorem lookup_deleteKey_ne {α : Type} (m : List (String × α)) (k j : String) (h : j ≠ k) :
    (deleteKey m k).lookup j = m.lookup j :=
  lookup_filter_ne m k j h

theorem writeAt_end (c b : List Byte) : writeAt c c.length b = c ++ b := by
  simp [writeAt]

theorem fsCreate_atEnd (fs fs2 : FS) (name : String) (file : Nat)
    (h : fs.Create name = (.ok file, fs2)) :
    file = fs.fds.length ∧ fs2.AtEnd file name [] ∧ fs2.dirs = fs.dirs := by
  unfold FS.Create at h
  split at h
  · cases h
  · split at h
    · cases h
    · cases h
      refine ⟨rfl, ⟨?_, ?_⟩, rfl⟩
      · simp
      · exact lookup_setKey_self _ _ _

theorem fsWrite_atEnd (fs : FS) (file : Nat) (path : String) (c b : List Byte)
    (h : fs.AtEnd file path c) :
    (fs.Write file b).1 = .ok b.length ∧ (fs.Write file b).2.AtEnd file path (c ++ b)
      ∧ (fs.Write file b).2.dirs = fs.dirs := by
  obtain ⟨hfd, hfile⟩ := h
  have hlt : file < fs.fds.length := by
    rcases Nat.lt_or_ge file fs.fds.length with h | h
    · exact h
    · rw [List.getElem?_eq_none h] at hfd
      cases hfd
  simp only [FS.Write, hfd, hfile, Option.getD_some, writeAt_end]
  refine ⟨by simp, ⟨?_, ?_⟩, by simp⟩
  · simp [List.getElem?_set, hlt]
  · exact lookup_setKey_self _ _ _

theorem fsClose_atEnd (fs : FS) (file : Nat) (path : String) (c : List Byte)
    (h : fs.AtEnd file path c) :
    (fs.Close file).1 = none ∧ (fs.Close file).2.files = fs.files
      ∧ (fs.Close file).2.dirs = fs.dirs := by
  obtain ⟨hfd, _⟩ := h
  simp [FS.Close, hfd]

theorem sessionWrite_atEnd (s : SessionRecorder) (data : List Byte) (w : Sys)
    (path : String) (c : List Byte) (h : w.fs.AtEnd s.file path c) :
    (s.Write data w).1 = none ∧ (s.Write data w).2.fs.AtEnd s.file path (c ++ stripANSI data)
      ∧ (s.Write data w).2.logs = w.logs := by
  have hw := fsWrite_atEnd w.fs s.file path c (stripANSI data) h
  rcases hr : w.fs.Write s.file (stripANSI data) with ⟨res, fs2⟩
  rw [hr] at hw
  obtain ⟨h1, h2, _⟩ := hw
  simp only at h1 h2
  subst h1
  simp only [SessionRecorder.Write, hr]
  exact ⟨trivial, h2, trivial⟩

theorem writeAll_atEnd (s : SessionRecorder) (path : String) (ds : List (List Byte)) :
    ∀ (w : Sys) (c : List Byte), w.fs.AtEnd s.file path c →
      (writeAll s ds w).1 = ds.map (fun _ => none)
        ∧ (writeAll s ds w).2.fs.AtEnd s.file path (c ++ ds.flatMap stripANSI) := by
  induction ds with
  | nil =>
    intro w c h
    simpa [writeAll] using h
  | cons d ds ih =>
    intro w c h
    obtain ⟨h1, h2, _⟩ := sessionWrite_atEnd s d w path c h
    obtain ⟨i1, i2⟩ := ih (s.Write d w).2 (c ++ stripANSI d) h2
    simp only [writeAll, List.map_cons, List.flatMap_cons]
    refine ⟨?_, ?_⟩
    · rw [h1, i1]
    · rw [← List.append_assoc]
      exact i2

theorem StartRecording_ok (tf : TimeFormat) (now : Time) (id : String) (r r1 : Recorder)
    (w w1 : Sys) (recorder : SessionRecorder)
    (h : r.StartRecording tf now id w = (.ok recorder, r1, w1)) :
    r.sessions.lookup id = none
      ∧ recorder = { sessionID := id, file := w.fs.fds.length, startTime := now }
      ∧ r1 = { r with sessions := setKey r.sessions id recorder }
      ∧ w1.fs.AtEnd recorder.file (r.GetRecordingPath id) (bytesOf (headerOf tf id now)) := by
  unfold Recorder.StartRecording at h
  cases hl : r.sessions.lookup id with
  | some x =>
    rw [hl] at h
    cases h
  | none =>
    rw [hl] at h
    simp only at h
    rcases hc : w.fs.Create (r.GetRecordingPath id) with ⟨res, fs1⟩
    rw [hc] at h
    cases res with
    | error e => cases h
    | ok file =>
      obtain ⟨hfile, hat, _⟩ := fsCreate_atEnd w.fs fs1 _ file hc
      simp only [Prod.mk.injEq, Except.ok.injEq] at h
      obtain ⟨hrec, hr1, hw1⟩ := h
      subst hrec hr1 hw1
      refine ⟨rfl, by rw [hfile], rfl, ?_⟩
      have hw := (fsWrite_atEnd fs1 file _ [] (bytesOf (headerOf tf id now)) hat).2.1
      simpa [Sys.Info, FS.WriteString] using hw

theorem StopRecording_present (tf : TimeFormat) (now since : Time) (id : String)
    (r : Recorder) (w : Sys) (recorder : SessionRecorder)
    (h : r.sessions.lookup id = some recorder) :
    (r.StopRecording tf now since id w).1 = none
      ∧ (r.StopRecording tf now since id w).2.1
          = { r with sessions := deleteKey r.sessions id } := by
  simp only [Recorder.StopRecording, h]
  exact ⟨trivial, trivial⟩

theorem StopRecording_atEnd (tf : TimeFormat) (now since : Time) (id : String)
    (r : Recorder) (w : Sys) (recorder : SessionRecorder) (path : String) (c : List Byte)
    (h : r.sessions.lookup id = some recorder) (hat : w.fs.AtEnd recorder.file path c) :
    (r.StopRecording tf now since id w).2.2.fs.files.lookup path
      = some (c ++ bytesOf (footerOf tf recorder.startTime now since)) := by
  have hw := fsWrite_atEnd w.fs recorder.file path c
    (bytesOf (footerOf tf recorder.startTime now since)) hat
  have hc := fsClose_atEnd _ recorder.file path _ hw.2.1
  simp only [Recorder.StopRecording, h, FS.WriteString]
  rcases hcl : ((w.fs.Write recorder.file
      (bytesOf (footerOf tf recorder.startTime now since))).2).Close recorder.file
    with ⟨e, fs3⟩
  rw [hcl] at hc
  obtain ⟨he, hfiles, _⟩ := hc
  simp only at he hfiles
  subst he
  simp only [Sys.Info, hfiles]
  exact hw.2.1.2

/-- C7. For every session id and every sequence of byte slices, if `StartRecording(id)`
returns a recorder, then each `Write(d)` on it returns nil, `StopRecording(id)` returns nil,
and the artifact of the session then holds exactly the header, the slices with their ANSI
escape sequences stripped, in order, and the footer. For the single slice
`ESC[31mHello ESC[0m LF` the stripped bytes are `Hello LF`. -/
theorem recording_roundtrip (tf : TimeFormat) (t0 t1 t2 : Time) (id : String)
    (ds : List (List Byte)) (r r1 : Recorder) (w w1 : Sys) (recorder : SessionRecorder)
    (hstart : r.StartRecording tf t0 id w = (.ok recorder, r1, w1)) :
    (writeAll recorder ds w1).1 = ds.map (fun _ => none)
      ∧ (r1.StopRecording tf t1 t2 id (writeAll recorder ds w1).2).1 = none
      ∧ artifact r (r1.StopRecording tf t1 t2 id (writeAll recorder ds w1).2).2.2 id
          = some (bytesOf (headerOf tf id t0) ++ ds.flatMap stripANSI
              ++ bytesOf (footerOf tf t0 t1 t2))
      ∧ stripANSI (bytesOf "\x1b[31mHello\x1b[0m\n") = bytesOf "Hello\n" := by
  obtain ⟨_, hrec, hr1, hat⟩ := StartRecording_ok tf t0 id r r1 w w1 recorder hstart
  obtain ⟨hws, hat2⟩ := writeAll_atEnd recorder (r.GetRecordingPath id) ds w1 _ hat
  have hl : r1.sessions.lookup id = some recorder := by
    rw [hr1]
    exact lookup_setKey_self _ _ _
  have hst : recorder.startTime = t0 := by rw [hrec]
  refine ⟨hws, (StopRecording_present tf t1 t2 id r1 _ recorder hl).1, ?_, by decide⟩
  have := StopRecording_atEnd tf t1 t2 id r1 _ recorder _ _ hl hat2
  rw [hst] at this
  exact this

set_option maxRecDepth 8000 in
/-- C7, worked example: on a fresh recorder under `rec`, `StartRecording("s1")` returns a
recorder, and after the single write `ESC[31mHello ESC[0m LF` and `StopRecording("s1")` the
file `rec/s1.txt` holds the header, `Hello LF` and the footer. -/
theorem recording_roundtrip_example :
    (demoRecorder.StartRecording demoFormat 5 "s1" demoSys).1 = .ok ⟨"s1", 0, 5⟩
    ∧ artifact demoRecorder
        ((demoRecorder.StartRecording demoFormat 5 "s1" demoSys).2.1.StopRecording
          demoFormat 9 9 "s1"
          (writeAll ⟨"s1", 0, 5⟩ [bytesOf "\x1b[31mHello\x1b[0m\n"]
            (demoRecorder.StartRecording demoFormat 5 "s1" demoSys).2.2).2).2.2 "s1"
      = some (bytesOf (headerOf demoFormat "s1" 5) ++ bytesOf "Hello\n"
          ++ bytesOf (footerOf demoFormat 5 9 9))
    ∧ bytesOf (headerOf demoFormat "s1" 5) ++ bytesOf "Hello\n"
          ++ bytesOf (footerOf demoFormat 5 9 9)
      = bytesOf ("# Orion-Belt Session Recording\n# Session ID: s1\n"
          ++ "# Start Time: 2024-05-01T10:00:00Z\n\nHello\n\n"
          ++ "# End Time: 2024-05-01T10:00:00Z\n# Duration: 4ns\n") :=
  have h := (recording_roundtrip demoFormat 5 9 9 "s1" [bytesOf "\x1b[31mHello\x1b[0m\n"]
    demoRecorder (demoRecorder.StartRecording demoFormat 5 "s1" demoSys).2.1
    demoSys (demoRecorder.StartRecording demoFormat 5 "s1" demoSys).2.2
    ⟨"s1", 0, 5⟩ rfl).2.2
  ⟨rfl,
    by
      have h4 := h.2
      have h3 := h.1
      simp only [List.flatMap_cons, List.flatMap_nil, List.append_nil, h4] at h3
      exact h3,
    by decide⟩

theorem fsCreate_error_frame (fs fs2 : FS) (name e : String)
    (h : fs.Create name = (.error e, fs2)) : fs2 = fs := by
  unfold FS.Create at h
  split at h
  · exact (congrArg Prod.snd h).symm
  · split at h
    · exact (congrArg Prod.snd h).symm
    · cases h

/-- A `StartRecording` that returns an error leaves the recorder and the system as they were,
so the same call made again, at any instant, returns the same error. -/
theorem StartRecording_error_again (tf : TimeFormat) (now now2 : Time) (id : String)
    (r : Recorder) (w : Sys) (e : String)
    (h : (r.StartRecording tf now id w).1 = .error e) :
    (r.StartRecording tf now id w).2 = (r, w)
      ∧ (r.StartRecording tf now2 id w).1 = .error e := by
  unfold Recorder.StartRecording at h ⊢
  cases hl : r.sessions.lookup id with
  | some x =>
    rw [hl] at h
    exact ⟨rfl, h⟩
  | none =>
    rw [hl] at h
    simp only at h ⊢
    rcases hc : w.fs.Create (r.GetRecordingPath id) with ⟨res, fs1⟩
    rw [hc] at h
    cases res with
    | error e2 =>
      have := fsCreate_error_frame w.fs fs1 _ e2 hc
      subst this
      exact ⟨rfl, h⟩
    | ok file => cases h

/-- C9. When the session id is already in the table, `StartRecording` returns the
already-recording error and the recorder, the file system (so every artifact), the log and the
standard error are exactly as before. In particular, after a `StartRecording(id)` that
returned a recorder, a second `StartRecording(id)` fails this way; and whatever the first call
returned, the second one in a row returns an error. -/
theorem StartRecording_already_recording (tf : TimeFormat) (now : Time) (id : String)
    (r : Recorder) (w : Sys) :
    (∀ recorder, r.sessions.lookup id = some recorder →
      r.StartRecording tf now id w = (.error ("session already being recorded: " ++ id), r, w))
    ∧ (∀ recorder r1 w1 now2, r.StartRecording tf now id w = (.ok recorder, r1, w1) →
      r1.StartRecording tf now2 id w1
        = (.error ("session already being recorded: " ++ id), r1, w1))
    ∧ (∀ now2, ∃ e,
        ((r.StartRecording tf now id w).2.1.StartRecording tf now2 id
          (r.StartRecording tf now id w).2.2).1 = .error e) := by
  have key : ∀ (r : Recorder) (w : Sys) (t : Time) (recorder : SessionRecorder),
      r.sessions.lookup id = some recorder →
      r.StartRecording tf t id w = (.error ("session already being recorded: " ++ id), r, w) := by
    intro r w t recorder h
    simp only [Recorder.StartRecording, h]
  have second : ∀ recorder r1 w1 now2, r.StartRecording tf now id w = (.ok recorder, r1, w1) →
      r1.StartRecording tf now2 id w1
        = (.error ("session already being recorded: " ++ id), r1, w1) := by
    intro recorder r1 w1 now2 h
    obtain ⟨_, _, hr1, _⟩ := StartRecording_ok tf now id r r1 w w1 recorder h
    apply key r1 w1 now2 recorder
    rw [hr1]
    exact lookup_setKey_self _ _ _
  refine ⟨key r w now, second, ?_⟩
  intro now2
  rcases hfirst : r.StartRecording tf now id w with ⟨res, r1, w1⟩
  cases res with
  | ok recorder =>
    exact ⟨_, congrArg Prod.fst (second recorder r1 w1 now2 hfirst)⟩
  | error e =>
    have hagain := StartRecording_error_again tf now now2 id r w e
      (by rw [hfirst])
    rw [hfirst] at hagain
    simp only [Prod.mk.injEq] at hagain
    obtain ⟨⟨hr, hw⟩, h2⟩ := hagain
    subst hr hw
    exact ⟨e, h2⟩

set_option maxRecDepth 8000 in
/-- C9, worked example: `StartRecording("s1")` twice in a row on a fresh recorder; the second
call fails and the artifact still holds just the header. -/
theorem StartRecording_already_recording_example :
    ((demoRecorder.StartRecording demoFormat 5 "s1" demoSys).2.1.StartRecording demoFormat 6
        "s1" (demoRecorder.StartRecording demoFormat 5 "s1" demoSys).2.2).1
      = .error "session already being recorded: s1"
    ∧ artifact demoRecorder
        ((demoRecorder.StartRecording demoFormat 5 "s1" demoSys).2.1.StartRecording demoFormat 6
          "s1" (demoRecorder.StartRecording demoFormat 5 "s1" demoSys).2.2).2.2 "s1"
      = some (bytesOf (headerOf demoFormat "s1" 5)) :=
  have h := (StartRecording_already_recording demoFormat 5 "s1" demoRecorder demoSys).2.1
    ⟨"s1", 0, 5⟩ (demoRecorder.StartRecording demoFormat 5 "s1" demoSys).2.1
    (demoRecorder.StartRecording demoFormat 5 "s1" demoSys).2.2 6 rfl
  ⟨by rw [h]; rfl, by rw [h]; rfl⟩

theorem create_error_ne_already (e id : String) :
    "failed to create recording file: " ++ e ≠ "session already being recorded: " ++ id := by
  intro h
  have := congrArg String.data h
  simp [String.data_append] at this

/-- C10. `StopRecording(id)` returns the not-recording error exactly when `id` is absent from
the table, and then recorder and system are unchanged. When `id` is present it returns nil
whatever `Close` returns, and the table loses exactly the entry of `id`: `GetRecorder(id)` then
fails with not-recording, the other ids keep their entries, and a new `StartRecording(id)` is
no longer refused as already recording, so it succeeds whenever its file can be created. -/
theorem StopRecording_removes_entry (tf : TimeFormat) (now since : Time) (id : String)
    (r : Recorder) (w : Sys) :
    ((r.StopRecording tf now since id w).1 = some ("session not being recorded: " ++ id)
        ↔ r.sessions.lookup id = none)
    ∧ ((r.StopRecording tf now since id w).1 ≠ none ↔ r.sessions.lookup id = none)
    ∧ (r.sessions.lookup id = none →
        r.StopRecording tf now since id w
          = (some ("session not being recorded: " ++ id), r, w))
    ∧ (∀ recorder, r.sessions.lookup id = some recorder →
        (r.StopRecording tf now since id w).1 = none
          ∧ (r.StopRecording tf now since id w).2.1
              = { r with sessions := deleteKey r.sessions id }
          ∧ (r.StopRecording tf now since id w).2.1.sessions.lookup id = none
          ∧ (∀ j, j ≠ id →
              (r.StopRecording tf now since id w).2.1.sessions.lookup j = r.sessions.lookup j)
          ∧ (r.StopRecording tf now since id w).2.1.GetRecorder id
              = .error ("session not being recorded: " ++ id)
          ∧ (∀ t, ((r.StopRecording tf now since id w).2.1.StartRecording tf t id
                (r.StopRecording tf now since id w).2.2).1
              ≠ .error ("session already being recorded: " ++ id))
          ∧ (∀ t file fs2,
              (r.StopRecording tf now since id w).2.2.fs.Create (r.GetRecordingPath id)
                = (.ok file, fs2) →
              ((r.StopRecording tf now since id w).2.1.StartRecording tf t id
                (r.StopRecording tf now since id w).2.2).1 = .ok ⟨id, file, t⟩)) := by
  cases hl : r.sessions.lookup id with
  | none =>
    have hstop : r.StopRecording tf now since id w
        = (some ("session not being recorded: " ++ id), r, w) := by
      simp only [Recorder.StopRecording, hl]
    rw [hstop]
    simp
  | some recorder =>
    obtain ⟨h1, h2⟩ := StopRecording_present tf now since id r w recorder hl
    refine ⟨by simp [h1], by simp [h1], by simp, ?_⟩
    intro rec2 _
    have hnone : (r.StopRecording tf now since id w).2.1.sessions.lookup id = none := by
      rw [h2]
      exact lookup_deleteKey_self _ _
    have hpath : (r.StopRecording tf now since id w).2.1.GetRecordingPath id
        = r.GetRecordingPath id := by
      rw [h2]
      rfl
    refine ⟨h1, h2, hnone, ?_, ?_, ?_, ?_⟩
    · intro j hj
      rw [h2]
      exact lookup_deleteKey_ne _ _ _ hj
    · simp only [Recorder.GetRecorder, hnone]
    · intro t
      simp only [Recorder.StartRecording, hnone, hpath]
      rcases (r.StopRecording tf now since id w).2.2.fs.Create (r.GetRecordingPath id)
        with ⟨res, fs2⟩
      cases res with
      | error e =>
        intro h
        exact create_error_ne_already e id (Except.error.inj h)
      | ok file =>
        intro h
        cases h
    · intro t file fs2 hc
      simp only [Recorder.StartRecording, hnone, hpath, hc]

/-- C10, worked example: the handle of `s1` is already closed, so `Close` fails inside
`StopRecording`; the call still returns nil, logs the failure, and empties the table. -/
theorem StopRecording_removes_entry_example :
    (stuckSys.fs.Close 0).1 = some "close rec/s1.txt: file already closed"
    ∧ (stuckRecorder.StopRecording demoFormat 9 9 "s1" stuckSys).1 = none
    ∧ (stuckRecorder.StopRecording demoFormat 9 9 "s1" stuckSys).2.1.GetRecorder "s1"
        = .error "session not being recorded: s1"
    ∧ ((stuckRecorder.StopRecording demoFormat 9 9 "s1" stuckSys).2.1.StartRecording demoFormat
        12 "s1" (stuckRecorder.StopRecording demoFormat 9 9 "s1" stuckSys).2.2).1
        = .ok ⟨"s1", 1, 12⟩ :=
  have h := (StopRecording_removes_entry demoFormat 9 9 "s1" stuckRecorder stuckSys).2.2.2
    ⟨"s1", 0, 5⟩ rfl
  ⟨by decide, h.1, h.2.2.2.2.1,
    h.2.2.2.2.2.2 12 1
      ((stuckRecorder.StopRecording demoFormat 9 9 "s1" stuckSys).2.2.fs.Create
        "rec/s1.txt").2 rfl⟩

theorem replaceAllFrom_skip (k : Nat) (l : List Byte) :
    replaceAllFrom k l = replaceAllFrom 0 (l.drop k) := by
  induction l generalizing k with
  | nil => cases k <;> simp [replaceAllFrom]
  | cons b rest ih =>
    cases k with
    | zero => rfl
    | succ k => simp only [replaceAllFrom, List.drop_succ_cons, ih k]

theorem stripANSI_cons_none (b : Byte) (rest : List Byte)
    (h : ansiMatchLen (b :: rest) = none) : stripANSI (b :: rest) = b :: stripANSI rest := by
  simp only [stripANSI, replaceAllFrom, h]

theorem stripANSI_cons_some (b : Byte) (rest : List Byte) (n : Nat)
    (h : ansiMatchLen (b :: rest) = some n) :
    stripANSI (b :: rest) = stripANSI (rest.drop (n - 1)) := by
  simp only [stripANSI, replaceAllFrom, h]
  exact replaceAllFrom_skip _ _

theorem matchesAt_cons_cons (e l : Byte) (x : List Byte) :
    matchesAt (e :: l :: x) = (isEsc e && isBracket l && letterNext x) := by
  simp only [matchesAt, ansiMatchLen, letterNext]
  by_cases h : (isEsc e && isBracket l) = true
  · rw [if_pos h, h]
    cases hd : x.dropWhile isParam with
    | nil => simp
    | cons t tl =>
      simp only [Bool.true_and]
      by_cases ht : isLetter t = true
      · simp [ht]
      · simp [ht]
  · rw [if_neg h]
    simp only [Bool.not_eq_true] at h
    simp [h]

theorem matchesAt_of_not_esc (b : Byte) (rest : List Byte) (h : isEsc b = false) :
    matchesAt (b :: rest) = false := by
  cases rest with
  | nil => rfl
  | cons l x => simp [matchesAt_cons_cons, h]

theorem matchesAt_eq_false_iff (bs : List Byte) :
    matchesAt bs = false ↔ ansiMatchLen bs = none := by
  simp [matchesAt]

theorem isParam_not_esc (b : Byte) (h : isParam b = true) : isEsc b = false := by
  simp only [isParam, isEsc, Bool.or_eq_true, Bool.and_eq_true, decide_eq_true_eq,
    beq_iff_eq] at h
  simp only [isEsc, beq_eq_false_iff_ne, ne_eq]
  omega

theorem letterNext_stripANSI (l : List Byte) (h : matchesAt (l.dropWhile isParam) = false) :
    letterNext (stripANSI l) = letterNext l := by
  induction l with
  | nil => rfl
  | cons q rest ih =>
    by_cases hq : isParam q = true
    · have hne := matchesAt_of_not_esc q rest (isParam_not_esc q hq)
      rw [stripANSI_cons_none q rest ((matchesAt_eq_false_iff _).mp hne)]
      simp only [List.dropWhile_cons, hq, ↓reduceIte] at h
      have := ih h
      simp only [letterNext, List.dropWhile_cons, hq, ↓reduceIte]
      simpa [letterNext] using this
    · have hq2 : isParam q = false := by simpa using hq
      simp only [List.dropWhile_cons, hq2] at h
      rw [stripANSI_cons_none q rest ((matchesAt_eq_false_iff _).mp (by simpa using h))]
      simp [letterNext, List.dropWhile_cons, hq2]

theorem head_stays_unmatched (b : Byte) (rest : List Byte)
    (hm : matchesAt (b :: rest) = false) (hi : introducerThenSequence (b :: rest) = false) :
    matchesAt (b :: stripANSI rest) = false := by
  by_cases hb : isEsc b = true
  · simp only [introducerThenSequence, hb, Bool.true_and, Bool.or_eq_false_iff] at hi
    obtain ⟨hrest, hsplit⟩ := hi
    cases rest with
    | nil => rfl
    | cons c rest2 =>
      rw [stripANSI_cons_none c rest2 ((matchesAt_eq_false_iff _).mp hrest)]
      rw [matchesAt_cons_cons] at hm ⊢
      by_cases hc : isBracket c = true
      · simp only [hc, Bool.true_and] at hsplit
        rw [letterNext_stripANSI rest2 hsplit]
        exact hm
      · have hc2 : isBracket c = false := by simpa using hc
        simp [hc2]
  · have hb2 : isEsc b = false := by simpa using hb
    exact matchesAt_of_not_esc b _ hb2

theorem hasSplitSequence_drop (l : List Byte) (k : Nat) (h : hasSplitSequence l = false) :
    hasSplitSequence (l.drop k) = false := by
  induction l generalizing k with
  | nil => simpa using h
  | cons b rest ih =>
    cases k with
    | zero => simpa using h
    | succ k =>
      simp only [hasSplitSequence, Bool.or_eq_false_iff] at h
      simpa using ih k h.2

theorem stripANSI_no_sequence_aux (n : Nat) :
    ∀ data : List Byte, data.length ≤ n → hasSplitSequence data = false →
      hasANSI (stripANSI data) = false := by
  induction n with
  | zero =>
    intro data hlen _
    have : data = [] := List.eq_nil_of_length_eq_zero (Nat.le_zero.mp hlen)
    subst this
    rfl
  | succ n ih =>
    intro data hlen hs
    cases data with
    | nil => rfl
    | cons b rest =>
      have hlen2 : rest.length ≤ n := by simpa using hlen
      simp only [hasSplitSequence, Bool.or_eq_false_iff] at hs
      cases hm : ansiMatchLen (b :: rest) with
      | some m =>
        rw [stripANSI_cons_some b rest m hm]
        apply ih
        · exact le_trans (by simp) hlen2
        · exact hasSplitSequence_drop rest _ hs.2
      | none =>
        rw [stripANSI_cons_none b rest hm]
        simp only [hasANSI, Bool.or_eq_false_iff]
        exact ⟨head_stays_unmatched b rest ((matchesAt_eq_false_iff _).mpr hm) hs.1,
          ih rest hlen2 hs.2⟩

theorem isLetter_not_param (b : Byte) (h : isLetter b = true) : isParam b = false := by
  simp only [isLetter, Bool.or_eq_true, Bool.and_eq_true, decide_eq_true_eq] at h
  simp only [isParam, Bool.or_eq_false_iff, Bool.and_eq_false_iff,
    decide_eq_false_iff_not, beq_eq_false_iff_ne, ne_eq]
  omega

theorem isEsc_iff (b : Byte) : isEsc b = true ↔ b = 0x1b := by
  simp only [isEsc, beq_iff_eq]
  constructor
  · intro h
    apply UInt8.eq_of_val_eq
    apply Fin.ext
    exact h
  · intro h
    subst h
    rfl

theorem isBracket_iff (b : Byte) : isBracket b = true ↔ b = 0x5b := by
  simp only [isBracket, beq_iff_eq]
  constructor
  · intro h
    apply UInt8.eq_of_val_eq
    apply Fin.ext
    exact h
  · intro h
    subst h
    rfl

theorem letterNext_iff (x : List Byte) :
    letterNext x = true ↔
      ∃ ps t suf, x = ps ++ t :: suf ∧ (∀ p ∈ ps, isParam p = true) ∧ isLetter t = true := by
  constructor
  · intro h
    simp only [letterNext] at h
    cases hd : x.dropWhile isParam with
    | nil => simp [hd] at h
    | cons t tl =>
      rw [hd] at h
      refine ⟨x.takeWhile isParam, t, tl, ?_, ?_, h⟩
      · rw [← hd, List.takeWhile_append_dropWhile]
      · intro p hp
        exact List.mem_takeWhile_imp hp
  · rintro ⟨ps, t, suf, rfl, hps, ht⟩
    have hnp := isLetter_not_param t ht
    have : (ps ++ t :: suf).dropWhile isParam = t :: suf := by
      induction ps with
      | nil => simp [List.dropWhile_cons, hnp]
      | cons p ps ih =>
        have hp := hps p (List.mem_cons_self _ _)
        simp only [List.cons_append, List.dropWhile_cons, hp, ↓reduceIte]
        exact ih (fun q hq => hps q (List.mem_cons_of_mem _ hq))
    simp [letterNext, this, ht]

/-- The bytes contain an escape sequence exactly when they have a substring made of `ESC`,
`[`, zero or more digits or semicolons, and one ASCII letter. -/
theorem hasANSI_iff (bs : List Byte) :
    hasANSI bs = true ↔
      ∃ pre ps t suf, bs = pre ++ 0x1b :: 0x5b :: (ps ++ t :: suf)
        ∧ (∀ p ∈ ps, isParam p = true) ∧ isLetter t = true := by
  induction bs with
  | nil =>
    simp only [hasANSI, Bool.false_eq_true, false_iff]
    rintro ⟨pre, ps, t, suf, h, _⟩
    cases pre <;> simp at h
  | cons b rest ih =>
    simp only [hasANSI, Bool.or_eq_true]
    constructor
    · rintro (h | h)
      · cases rest with
        | nil => simp [matchesAt, ansiMatchLen] at h
        | cons l x =>
          rw [matchesAt_cons_cons] at h
          simp only [Bool.and_eq_true] at h
          obtain ⟨⟨he, hl⟩, hn⟩ := h
          obtain ⟨ps, t, suf, hx, hps, ht⟩ := (letterNext_iff x).mp hn
          refine ⟨[], ps, t, suf, ?_, hps, ht⟩
          rw [(isEsc_iff b).mp he, (isBracket_iff l).mp hl, hx]
          rfl
      · obtain ⟨pre, ps, t, suf, hx, hps, ht⟩ := ih.mp h
        exact ⟨b :: pre, ps, t, suf, by rw [hx]; rfl, hps, ht⟩
    · rintro ⟨pre, ps, t, suf, hx, hps, ht⟩
      cases pre with
      | nil =>
        left
        simp only [List.nil_append, List.cons.injEq] at hx
        obtain ⟨hb, hrest⟩ := hx
        subst hb hrest
        rw [matchesAt_cons_cons]
        simp only [Bool.and_eq_true]
        exact ⟨⟨rfl, rfl⟩, (letterNext_iff _).mpr ⟨ps, t, suf, rfl, hps, ht⟩⟩
      | cons a pre =>
        right
        simp only [List.cons_append, List.cons.injEq] at hx
        exact ih.mpr ⟨pre, ps, t, suf, hx.2, hps, ht⟩

/-- C8, as stated, fails: written to an open, empty artifact, the slice `ESC [ ESC [ 0 m m`
loses its one match `ESC [ 0 m`, and the bytes appended are `ESC [ m`, an escape sequence. -/
theorem write_leaves_escape_sequence :
    (demoSession.Write [0x1b, 0x5b, 0x1b, 0x5b, 0x30, 0x6d, 0x6d] openSys).1 = none
      ∧ (demoSession.Write [0x1b, 0x5b, 0x1b, 0x5b, 0x30, 0x6d, 0x6d] openSys).2.fs.files.lookup
          "rec/s1.txt" = some [0x1b, 0x5b, 0x6d]
      ∧ hasANSI [0x1b, 0x5b, 0x6d] = true
      ∧ isLetter 0x6d = true := by
  decide

/-- C8, amended. `Write` hands the file exactly `ansiRegex.ReplaceAll(data, "")`, the data with
the matches found in one left-to-right pass removed, so on an artifact open at its end these
are the bytes appended; and whenever no escape sequence of the data immediately follows an
unterminated introducer (`ESC` alone, or `ESC [` and digits or semicolons), the bytes appended
contain no escape sequence. -/
theorem write_strips_in_one_pass (s : SessionRecorder) (data : List Byte) (w : Sys)
    (hclean : hasSplitSequence data = false) :
    (s.Write data w).2.fs = (w.fs.Write s.file (stripANSI data)).2
      ∧ (∀ path c, w.fs.AtEnd s.file path c →
          (s.Write data w).1 = none
            ∧ (s.Write data w).2.fs.files.lookup path = some (c ++ stripANSI data))
      ∧ hasANSI (stripANSI data) = false
      ∧ ¬ ∃ pre ps t suf, stripANSI data = pre ++ 0x1b :: 0x5b :: (ps ++ t :: suf)
          ∧ (∀ p ∈ ps, isParam p = true) ∧ isLetter t = true := by
  have hno := stripANSI_no_sequence_aux data.length data (le_refl _) hclean
  refine ⟨?_, ?_, hno, ?_⟩
  rotate_left 2
  · intro hex
    rw [(hasANSI_iff _).mpr hex] at hno
    cases hno
  · simp only [SessionRecorder.Write]
    rcases w.fs.Write s.file (stripANSI data) with ⟨res, fs2⟩
    cases res <;> rfl
  · intro path c hat
    obtain ⟨h1, h2, _⟩ := sessionWrite_atEnd s data w path c hat
    exact ⟨h1, h2.2⟩

/-- C8, worked example: the slice `ESC[31mHello ESC[0m LF` has no split sequence and its
stripped form has no escape sequence. -/
theorem write_strips_in_one_pass_example :
    hasSplitSequence (bytesOf "\x1b[31mHello\x1b[0m\n") = false
      ∧ hasANSI (stripANSI (bytesOf "\x1b[31mHello\x1b[0m\n")) = false :=
  ⟨by decide,
    (write_strips_in_one_pass demoSession (bytesOf "\x1b[31mHello\x1b[0m\n") openSys
      (by decide)).2.2.1⟩

theorem fsClose_leaves_closed (fs : FS) (file : Nat) :
    (fs.Close file).2.fds[file]? = none
      ∨ ∃ g, (fs.Close file).2.fds[file]? = some g ∧ g.closed = true := by
  unfold FS.Close
  cases h : fs.fds[file]? with
  | none => exact Or.inl h
  | some g =>
    simp only
    by_cases hc : g.closed = true
    · rw [if_pos hc]
      exact Or.inr ⟨g, h, hc⟩
    · rw [if_neg hc]
      have hlt : file < fs.fds.length := by
        rcases Nat.lt_or_ge file fs.fds.length with h1 | h1
        · exact h1
        · rw [List.getElem?_eq_none h1] at h
          cases h
      exact Or.inr ⟨{ g with closed := true }, by simp [List.getElem?_set, hlt], rfl⟩

theorem fsWrite_closed (fs : FS) (file : Nat) (b : List Byte)
    (h : fs.fds[file]? = none ∨ ∃ g, fs.fds[file]? = some g ∧ g.closed = true) :
    ∃ e, fs.Write file b = (.error e, fs) := by
  unfold FS.Write
  rcases h with h | ⟨g, h, hc⟩
  · rw [h]
    exact ⟨_, rfl⟩
  · rw [h]
    simp only [hc, ↓reduceIte]
    exact ⟨_, rfl⟩

theorem StopRecording_fs (tf : TimeFormat) (now since : Time) (id : String)
    (r : Recorder) (w : Sys) (recorder : SessionRecorder)
    (h : r.sessions.lookup id = some recorder) :
    (r.StopRecording tf now since id w).2.2.fs
      = ((w.fs.WriteString recorder.file
          (footerOf tf recorder.startTime now since)).2.Close recorder.file).2 := by
  simp only [Recorder.StopRecording, h]
  rcases ((w.fs.WriteString recorder.file
      (footerOf tf recorder.startTime now since)).2).Close recorder.file with ⟨e, fs3⟩
  cases e <;> rfl

theorem write_error_ne_not_recording (e id : String) :
    "failed to write to recording: " ++ e ≠ "session not being recorded: " ++ id := by
  intro h
  have := congrArg String.data h
  simp [String.data_append] at this

theorem sessionWrite_closed (s : SessionRecorder) (data : List Byte) (w : Sys)
    (h : w.fs.fds[s.file]? = none ∨ ∃ g, w.fs.fds[s.file]? = some g ∧ g.closed = true) :
    ∃ e, s.Write data w = (some ("failed to write to recording: " ++ e), w) := by
  obtain ⟨e, he⟩ := fsWrite_closed w.fs s.file (stripANSI data) h
  exact ⟨e, by simp only [SessionRecorder.Write, he]⟩

/-- C11, as stated, fails: the recorder returned by `StartRecording("s1")` is written to after
`StopRecording("s1")` has returned; the write fails, but with the error of a closed file, not
with the not-recording error. -/
theorem write_after_stop_is_not_not_recording :
    ((⟨"s1", 0, 5⟩ : SessionRecorder).Write [0x68, 0x69]
        ((demoRecorder.StartRecording demoFormat 5 "s1" demoSys).2.1.StopRecording demoFormat
          9 9 "s1" (demoRecorder.StartRecording demoFormat 5 "s1" demoSys).2.2).2.2).1
      = some "failed to write to recording: write rec/s1.txt: file already closed"
    ∧ (demoRecorder.StartRecording demoFormat 5 "s1" demoSys).1 = .ok ⟨"s1", 0, 5⟩
    ∧ some "failed to write to recording: write rec/s1.txt: file already closed"
      ≠ some "session not being recorded: s1" := by
  refine ⟨?_, ?_, ?_⟩
  · rfl
  · rfl
  · decide

/-- C11, amended. A session id that is not in the table cannot be written to by id:
`GetRecorder(id)` fails with the not-recording error and nothing is appended to any artifact.
A `Write` through the recorder that the table held under `id` before `StopRecording(id)`
fails once `StopRecording(id)` has returned and leaves every artifact as it is, but its error
is the failed-write error of the closed file, never the not-recording error. -/
theorem write_after_stop_fails (tf : TimeFormat) (now since : Time) (id : String)
    (r : Recorder) (w : Sys) (recorder : SessionRecorder) (data : List Byte)
    (h : r.sessions.lookup id = some recorder) :
    (∃ e, recorder.Write data (r.StopRecording tf now since id w).2.2
        = (some ("failed to write to recording: " ++ e), (r.StopRecording tf now since id w).2.2))
    ∧ (recorder.Write data (r.StopRecording tf now since id w).2.2).1
        ≠ some ("session not being recorded: " ++ id)
    ∧ writeFor (r.StopRecording tf now since id w).2.1 id data
          (r.StopRecording tf now since id w).2.2
        = (some ("session not being recorded: " ++ id), (r.StopRecording tf now since id w).2.2)
    ∧ (∀ (r0 : Recorder) (w0 : Sys) (j : String), r0.sessions.lookup j = none →
        writeFor r0 j data w0 = (some ("session not being recorded: " ++ j), w0)) := by
  have hfor : ∀ (r0 : Recorder) (w0 : Sys) (j : String), r0.sessions.lookup j = none →
      writeFor r0 j data w0 = (some ("session not being recorded: " ++ j), w0) := by
    intro r0 w0 j hj
    simp only [writeFor, Recorder.GetRecorder, hj]
  have hclosed := fsClose_leaves_closed
    (w.fs.WriteString recorder.file (footerOf tf recorder.startTime now since)).2 recorder.file
  rw [← StopRecording_fs tf now since id r w recorder h] at hclosed
  obtain ⟨e, he⟩ := sessionWrite_closed recorder data _ hclosed
  refine ⟨⟨e, he⟩, ?_, ?_, hfor⟩
  · rw [he]
    intro hc
    exact write_error_ne_not_recording e id (Option.some.inj hc)
  · apply hfor
    rw [(StopRecording_present tf now since id r w recorder h).2]
    exact lookup_deleteKey_self _ _

/-- C11, worked example: on the stuck recorder, whose handle was closed behind its back,
`StopRecording("s1")` is followed by a write through the old recorder; it fails and the
system is left as it was. -/
theorem write_after_stop_fails_example :
    stuckRecorder.sessions.lookup "s1" = some ⟨"s1", 0, 5⟩
    ∧ ∃ e, (⟨"s1", 0, 5⟩ : SessionRecorder).Write [0x68, 0x69]
        (stuckRecorder.StopRecording demoFormat 9 9 "s1" stuckSys).2.2
      = (some ("failed to write to recording: " ++ e),
          (stuckRecorder.StopRecording demoFormat 9 9 "s1" stuckSys).2.2) :=
  ⟨rfl,
    (write_after_stop_fails demoFormat 9 9 "s1" stuckRecorder stuckSys ⟨"s1", 0, 5⟩
      [0x68, 0x69] rfl).1⟩

theorem sessionWrite_frame (s : SessionRecorder) (data : List Byte) (w : Sys) :
    (s.Write data w).2.stderr = w.stderr ∧ (s.Write data w).2.logs = w.logs := by
  simp only [SessionRecorder.Write]
  rcases w.fs.Write s.file (stripANSI data) with ⟨res, fs2⟩
  cases res <;> exact ⟨rfl, rfl⟩

theorem recordingWrite_eq {σ : Type} (rw : RecordingWriter σ) (p : List Byte) (w : Sys)
    (u : σ) : rw.Write p w u = rw.writer.Write p (offered rw.recorder p w) u := by
  simp only [RecordingWriter.Write, offered]
  rcases rw.recorder.Write p w with ⟨e, w1⟩
  cases e <;> rfl

theorem offered_fs (recorder : SessionRecorder) (p : List Byte) (w : Sys) :
    (offered recorder p w).fs = (recorder.Write p w).2.fs
      ∧ (offered recorder p w).logs = w.logs := by
  simp only [offered, SessionRecorder.Write]
  rcases w.fs.Write recorder.file (stripANSI p) with ⟨res, fs2⟩
  cases res <;> exact ⟨rfl, rfl⟩

/-- C12. `RecordingWriter.Write(p)` is one call of the underlying writer with exactly `p`, made
in the system in which the recorder has already been offered `p` (and, if the recorder
failed, its error printed to standard error), and it returns what that call returns. With an
underlying writer that keeps what it is given, the tape grows by the single entry `p`,
unmodified, next to the file system as the recorder left it, and the fixed `(n, err)` comes
back, whether the recorder's `Write` failed or not. -/
theorem recordingWriter_tees {σ : Type} (writer : Writer σ) (recorder : SessionRecorder)
    (p : List Byte) (w : Sys) (u : σ) (res : Nat × Option String)
    (tape : List (List Byte × FS)) :
    (NewRecordingWriter writer recorder).Write p w u
        = writer.Write p (offered recorder p w) u
    ∧ ((NewRecordingWriter writer recorder).Write p w u).1
        = (writer.Write p (offered recorder p w) u).1
    ∧ (offered recorder p w).fs = (recorder.Write p w).2.fs
    ∧ ((recorder.Write p w).1 = none → offered recorder p w = (recorder.Write p w).2)
    ∧ (∀ e, (recorder.Write p w).1 = some e →
        (offered recorder p w).stderr = w.stderr ++ ["Recording error: " ++ e ++ "\n"])
    ∧ (NewRecordingWriter (tapeWriter res) recorder).Write p w tape
        = (res, offered recorder p w, tape ++ [(p, (recorder.Write p w).2.fs)]) := by
  have heq : ∀ {τ : Type} (wr : Writer τ) (v : τ),
      (NewRecordingWriter wr recorder).Write p w v = wr.Write p (offered recorder p w) v :=
    fun wr v => recordingWrite_eq (NewRecordingWriter wr recorder) p w v
  refine ⟨heq writer u, by rw [heq], (offered_fs _ p w).1, ?_, ?_, ?_⟩
  · intro h
    simp only [offered]
    rcases hr : recorder.Write p w with ⟨e, w1⟩
    rw [hr] at h
    simp only at h
    subst h
    rfl
  · intro e h
    have hs := (sessionWrite_frame recorder p w).1
    simp only [offered]
    rcases hr : recorder.Write p w with ⟨e1, w1⟩
    rw [hr] at h hs
    simp only at h hs
    subst h
    simp [hs]
  · rw [heq]
    simp only [tapeWriter, (offered_fs _ p w).1]

/-- C12, worked example: the recorder's file is closed, so recording `ESC[31mhi` fails; the
underlying writer still receives the slice with its escape sequence, once, and its
`(7, nil)` is returned. -/
theorem recordingWriter_tees_example :
    ((⟨"s1", 0, 5⟩ : SessionRecorder).Write (bytesOf "\x1b[31mhi") stuckSys).1
        = some "failed to write to recording: write rec/s1.txt: file already closed"
    ∧ ((NewRecordingWriter (tapeWriter (7, none)) ⟨"s1", 0, 5⟩).Write
        (bytesOf "\x1b[31mhi") stuckSys []).1 = (7, none)
    ∧ ((NewRecordingWriter (tapeWriter (7, none)) ⟨"s1", 0, 5⟩).Write
        (bytesOf "\x1b[31mhi") stuckSys []).2.2 = [(bytesOf "\x1b[31mhi", stuckSys.fs)] :=
  have h := (recordingWriter_tees (tapeWriter (7, none)) ⟨"s1", 0, 5⟩
    (bytesOf "\x1b[31mhi") stuckSys [] (7, none) []).2.2.2.2.2
  ⟨rfl, by rw [h], by rw [h]; rfl⟩

theorem infix_of_mid (a b c : String) : b.data <:+: (a ++ b ++ c).data := by
  simp only [String.data_append]
  exact List.infix_append _ _ _

set_option maxRecDepth 8000 in
/-- C16, as stated, fails: the footer that `StopRecording("s1")` writes, here with end time
`2024-05-01T10:00:00Z` and duration `4ns`, does not contain the session id `s1`. -/
theorem footer_lacks_session_id :
    artifact demoRecorder
        ((demoRecorder.StartRecording demoFormat 5 "s1" demoSys).2.1.StopRecording demoFormat
          9 9 "s1" (demoRecorder.StartRecording demoFormat 5 "s1" demoSys).2.2).2.2 "s1"
      = some (bytesOf (headerOf demoFormat "s1" 5)
          ++ bytesOf "\n# End Time: 2024-05-01T10:00:00Z\n# Duration: 4ns\n")
    ∧ ¬ ("s1".data <:+: "\n# End Time: 2024-05-01T10:00:00Z\n# Duration: 4ns\n".data) := by
  refine ⟨?_, ?_⟩
  · rfl
  · decide

/-- C16, amended. After a `StartRecording(id)` that returns a recorder and the
`StopRecording(id)` that follows, the artifact is the header followed by the footer. The
header is the fixed title, the line `# Session ID: ` with the id and the line
`# Start Time: ` with the RFC 3339 start time, so it contains both. The footer is the line
`# End Time: ` with the RFC 3339 end time and the line `# Duration: ` with the elapsed
duration, so it contains both; it is built from these two alone, without the session id. -/
theorem header_and_footer_content (tf : TimeFormat) (t0 t1 t2 : Time) (id : String)
    (r r1 : Recorder) (w w1 : Sys) (recorder : SessionRecorder)
    (hstart : r.StartRecording tf t0 id w = (.ok recorder, r1, w1)) :
    artifact r (r1.StopRecording tf t1 t2 id w1).2.2 id
        = some (bytesOf (headerOf tf id t0) ++ bytesOf (footerOf tf t0 t1 t2))
    ∧ headerOf tf id t0
        = "# Orion-Belt Session Recording\n# Session ID: " ++ id ++ "\n# Start Time: "
          ++ tf.rfc3339 t0 ++ "\n\n"
    ∧ footerOf tf t0 t1 t2
        = "\n# End Time: " ++ tf.rfc3339 t1 ++ "\n# Duration: " ++ tf.duration (t2 - t0) ++ "\n"
    ∧ id.data <:+: (headerOf tf id t0).data
    ∧ (tf.rfc3339 t0).data <:+: (headerOf tf id t0).data
    ∧ (tf.rfc3339 t1).data <:+: (footerOf tf t0 t1 t2).data
    ∧ (tf.duration (t2 - t0)).data <:+: (footerOf tf t0 t1 t2).data := by
  obtain ⟨_, hrec, hr1, hat⟩ := StartRecording_ok tf t0 id r r1 w w1 recorder hstart
  have hl : r1.sessions.lookup id = some recorder := by
    rw [hr1]
    exact lookup_setKey_self _ _ _
  have hst : recorder.startTime = t0 := by rw [hrec]
  have hart := StopRecording_atEnd tf t1 t2 id r1 w1 recorder _ _ hl hat
  rw [hst] at hart
  refine ⟨hart, rfl, rfl, ?_, ?_, ?_, ?_⟩
  · have := infix_of_mid "# Orion-Belt Session Recording\n# Session ID: " id
      ("\n# Start Time: " ++ tf.rfc3339 t0 ++ "\n\n")
    simpa [headerOf, String.append_assoc] using this
  · have := infix_of_mid ("# Orion-Belt Session Recording\n# Session ID: " ++ id
      ++ "\n# Start Time: ") (tf.rfc3339 t0) "\n\n"
    simpa [headerOf, String.append_assoc] using this
  · have := infix_of_mid "\n# End Time: " (tf.rfc3339 t1)
      ("\n# Duration: " ++ tf.duration (t2 - t0) ++ "\n")
    simpa [footerOf, String.append_assoc] using this
  · have := infix_of_mid ("\n# End Time: " ++ tf.rfc3339 t1 ++ "\n# Duration: ")
      (tf.duration (t2 - t0)) "\n"
    simpa [footerOf, String.append_assoc] using this

/-- C16, worked example: the header of `s1` started at instant 5 contains `s1`. -/
theorem header_and_footer_content_example :
    (demoRecorder.StartRecording demoFormat 5 "s1" demoSys).1 = .ok ⟨"s1", 0, 5⟩
    ∧ "s1".data <:+: (headerOf demoFormat "s1" 5).data :=
  ⟨rfl,
    (header_and_footer_content demoFormat 5 9 9 "s1" demoRecorder
      (demoRecorder.StartRecording demoFormat 5 "s1" demoSys).2.1 demoSys
      (demoRecorder.StartRecording demoFormat 5 "s1" demoSys).2.2 ⟨"s1", 0, 5⟩ rfl).2.2.2.1⟩

theorem dropWhile_append_of_ne_nil (p : Byte → Bool) (l b : List Byte) (t : Byte)
    (tl : List Byte) (h : l.dropWhile p = t :: tl) :
    (l ++ b).dropWhile p = t :: (tl ++ b) ∧ (l ++ b).takeWhile p = l.takeWhile p := by
  induction l with
  | nil => simp at h
  | cons x xs ih =>
    by_cases hx : p x = true
    · simp only [List.dropWhile_cons, hx, ↓reduceIte] at h
      obtain ⟨i1, i2⟩ := ih h
      simp [List.dropWhile_cons, List.takeWhile_cons, hx, i1, i2]
    · simp only [List.dropWhile_cons, hx] at h
      simp only [Bool.false_eq_true, ↓reduceIte, List.cons.injEq] at h
      obtain ⟨rfl, rfl⟩ := h
      simp [List.dropWhile_cons, List.takeWhile_cons, hx]

theorem ansiMatchLen_append (l b : List Byte) (n : Nat) (h : ansiMatchLen l = some n) :
    ansiMatchLen (l ++ b) = some n ∧ 1 ≤ n ∧ n ≤ l.length := by
  match l, h with
  | e :: c :: rest, h =>
    simp only [ansiMatchLen] at h
    by_cases hg : (isEsc e && isBracket c) = true
    · rw [if_pos hg] at h
      cases hd : rest.dropWhile isParam with
      | nil =>
        rw [hd] at h
        cases h
      | cons t tl =>
        rw [hd] at h
        simp only at h
        by_cases ht : isLetter t = true
        · rw [if_pos ht] at h
          obtain ⟨d1, d2⟩ := dropWhile_append_of_ne_nil isParam rest b t tl hd
          have hlen : (rest.takeWhile isParam).length + (t :: tl).length = rest.length := by
            rw [← hd, ← List.length_append, List.takeWhile_append_dropWhile]
          have hn : n = 2 + (rest.takeWhile isParam).length + 1 := (Option.some.inj h).symm
          refine ⟨?_, by omega, ?_⟩
          · simp only [List.cons_append, ansiMatchLen, hg, ↓reduceIte, d1, d2, ht]
            exact h
          · simp only [List.length_cons] at hlen ⊢
            omega
        · rw [if_neg ht] at h
          cases h
    · rw [if_neg hg] at h
      cases h

theorem dropWhile_append_of_not_all (ps b : List Byte) (h : ps.all isParam = false) :
    letterNext (ps ++ b) = letterNext ps := by
  induction ps with
  | nil => simp at h
  | cons x xs ih =>
    by_cases hx : isParam x = true
    · have hxs : xs.all isParam = false := by simpa [hx] using h
      have := ih hxs
      simp only [letterNext, List.cons_append, List.dropWhile_cons, hx, ↓reduceIte] at this ⊢
      exact this
    · simp [letterNext, List.dropWhile_cons, hx]

theorem matchesAt_append_of_not_introducer (t b : List Byte) (hne : t ≠ [])
    (hm : matchesAt t = false) (hi : isIntroducer t = false) :
    matchesAt (t ++ b) = false := by
  match t, hne with
  | [x], _ =>
    simp only [isIntroducer] at hi
    exact matchesAt_of_not_esc x _ hi
  | x :: l :: ps, _ =>
    simp only [List.cons_append]
    rw [matchesAt_cons_cons] at hm ⊢
    simp only [isIntroducer] at hi
    by_cases hg : (isEsc x && isBracket l) = true
    · rw [hg] at hm hi ⊢
      simp only [Bool.true_and] at hm hi ⊢
      rw [dropWhile_append_of_not_all ps b hi]
      exact hm
    · simp only [Bool.not_eq_true] at hg
      rw [hg]
      rfl

theorem endsInIntroducer_drop (l : List Byte) (k : Nat) (h : endsInIntroducer l = false) :
    endsInIntroducer (l.drop k) = false := by
  induction l generalizing k with
  | nil => simpa using h
  | cons b rest ih =>
    cases k with
    | zero => simpa using h
    | succ k =>
      simp only [endsInIntroducer, Bool.or_eq_false_iff] at h
      simpa using ih k h.2

theorem stripANSI_append_aux (b : List Byte) (n : Nat) :
    ∀ a : List Byte, a.length ≤ n → endsInIntroducer a = false →
      stripANSI (a ++ b) = stripANSI a ++ stripANSI b := by
  induction n with
  | zero =>
    intro a hlen _
    have : a = [] := List.eq_nil_of_length_eq_zero (Nat.le_zero.mp hlen)
    subst this
    rfl
  | succ n ih =>
    intro a hlen hs
    cases a with
    | nil => rfl
    | cons x rest =>
      have hlen2 : rest.length ≤ n := by simpa using hlen
      simp only [endsInIntroducer, Bool.or_eq_false_iff] at hs
      cases hm : ansiMatchLen (x :: rest) with
      | some m =>
        obtain ⟨happ, h1, h2⟩ := ansiMatchLen_append (x :: rest) b m hm
        have hle : m - 1 ≤ rest.length := by
          simp only [List.length_cons] at h2
          omega
        rw [List.cons_append] at happ ⊢
        rw [stripANSI_cons_some x (rest ++ b) m happ, stripANSI_cons_some x rest m hm,
          List.drop_append_of_le_length hle]
        apply ih
        · exact le_trans (by simp) hlen2
        · exact endsInIntroducer_drop rest _ hs.2
      | none =>
        have hno := matchesAt_append_of_not_introducer (x :: rest) b (by simp)
          ((matchesAt_eq_false_iff _).mpr hm) hs.1
        rw [List.cons_append] at hno ⊢
        rw [stripANSI_cons_none x (rest ++ b) ((matchesAt_eq_false_iff _).mp hno),
          stripANSI_cons_none x rest hm, ih rest hlen2 hs.2]
        rfl

/-- C19, as stated, fails: `ESC` written alone and then `[0m` leaves `ESC[0m` in the
artifact, while the single write of `ESC[0m` leaves nothing. -/
theorem split_sequence_survives :
    stripANSI [0x1b] ++ stripANSI [0x5b, 0x30, 0x6d] = [0x1b, 0x5b, 0x30, 0x6d]
    ∧ stripANSI ([0x1b] ++ [0x5b, 0x30, 0x6d]) = []
    ∧ (writeAll demoSession [[0x1b], [0x5b, 0x30, 0x6d]] openSys).2.fs.files.lookup
        "rec/s1.txt" = some [0x1b, 0x5b, 0x30, 0x6d]
    ∧ (demoSession.Write ([0x1b] ++ [0x5b, 0x30, 0x6d]) openSys).2.fs.files.lookup "rec/s1.txt"
        = some [] := by
  decide

/-- C19, amended. For all byte slices `a` and `b` such that `a` does not end in an
unterminated introducer (`ESC` alone, or `ESC [` and digits or semicolons),
`strip(a) ++ strip(b) = strip(a ++ b)`, and on an artifact open at its end `Write(a)` followed
by `Write(b)` appends the same bytes as the single `Write(a ++ b)`. -/
theorem write_split_invariant (a b : List Byte) (h : endsInIntroducer a = false) :
    stripANSI a ++ stripANSI b = stripANSI (a ++ b)
    ∧ ∀ (s : SessionRecorder) (w : Sys) (path : String) (c : List Byte),
        w.fs.AtEnd s.file path c →
        (writeAll s [a, b] w).2.fs.files.lookup path = some (c ++ stripANSI (a ++ b))
          ∧ (s.Write (a ++ b) w).2.fs.files.lookup path = some (c ++ stripANSI (a ++ b)) := by
  have heq := (stripANSI_append_aux b a.length a (le_refl _) h).symm
  refine ⟨heq, ?_⟩
  intro s w path c hat
  have h2 := (writeAll_atEnd s path [a, b] w c hat).2.2
  have h1 := (sessionWrite_atEnd s (a ++ b) w path c hat).2.1.2
  refine ⟨?_, h1⟩
  rw [h2]
  simp [heq]

/-- C19, worked example: `ESC[31mHel` and `lo` written in two parts. -/
theorem write_split_invariant_example :
    endsInIntroducer (bytesOf "\x1b[31mHel") = false
    ∧ stripANSI (bytesOf "\x1b[31mHel") ++ stripANSI (bytesOf "lo")
      = stripANSI (bytesOf "\x1b[31mHel" ++ bytesOf "lo") :=
  ⟨by decide, (write_split_invariant (bytesOf "\x1b[31mHel") (bytesOf "lo") (by decide)).1⟩

theorem fsWrite_fds_length (fs : FS) (file : Nat) (b : List Byte) :
    (fs.Write file b).2.fds.length = fs.fds.length := by
  unfold FS.Write
  cases fs.fds[file]? with
  | none => rfl
  | some f =>
    simp only
    split
    · rfl
    · simp

theorem fsClose_fds_length (fs : FS) (file : Nat) :
    (fs.Close file).2.fds.length = fs.fds.length := by
  unfold FS.Close
  cases fs.fds[file]? with
  | none => rfl
  | some f =>
    simp only
    split
    · rfl
    · simp

theorem sessionWrite_fds_length (s : SessionRecorder) (data : List Byte) (w : Sys) :
    (s.Write data w).2.fs.fds.length = w.fs.fds.length := by
  have h := fsWrite_fds_length w.fs s.file (stripANSI data)
  simp only [SessionRecorder.Write]
  rcases hr : w.fs.Write s.file (stripANSI data) with ⟨res, fs2⟩
  rw [hr] at h
  cases res <;> exact h

theorem lookup_of_mem_nodup (m : List (String × SessionRecorder)) (k : String)
    (v : SessionRecorder) (hn : (m.map Prod.fst).Nodup) (hm : (k, v) ∈ m) :
    m.lookup k = some v := by
  induction m with
  | nil => cases hm
  | cons x xs ih =>
    obtain ⟨a, b⟩ := x
    simp only [List.map_cons, List.nodup_cons] at hn
    rcases List.mem_cons.mp hm with heq | hmem
    · cases heq
      simp [List.lookup]
    · have hne : k ≠ a := by
        intro h
        subst h
        exact hn.1 (List.mem_map_of_mem Prod.fst hmem)
      have hb : (k == a) = false := by simpa using hne
      simp only [List.lookup, hb]
      exact ih hn.2 hmem

theorem mem_of_lookup (m : List (String × SessionRecorder)) (k : String)
    (v : SessionRecorder) (h : m.lookup k = some v) : (k, v) ∈ m := by
  induction m with
  | nil => cases h
  | cons x xs ih =>
    obtain ⟨a, b⟩ := x
    by_cases hk : k = a
    · subst hk
      simp only [List.lookup, beq_self_eq_true, Option.some.injEq] at h
      subst h
      exact List.mem_cons_self _ _
    · have hb : (k == a) = false := by simpa using hk
      simp only [List.lookup, hb] at h
      exact List.mem_cons_of_mem _ (ih h)

theorem TableOK_filter (r : Recorder) (w w2 : Sys) (id : String) (h : TableOK r w)
    (hlen : w.fs.fds.length ≤ w2.fs.fds.length) :
    TableOK { r with sessions := deleteKey r.sessions id } w2 := by
  obtain ⟨h1, h2, h3, h4⟩ := h
  have hsub : (deleteKey r.sessions id).Sublist r.sessions := List.filter_sublist _
  refine ⟨h1.sublist (hsub.map _), ?_, ?_, h4.sublist (hsub.map _)⟩
  · intro kv hkv
    exact h2 kv (hsub.subset hkv)
  · intro kv hkv
    exact lt_of_lt_of_le (h3 kv (hsub.subset hkv)) hlen

theorem TableOK_start (tf : TimeFormat) (now : Time) (id : String) (r : Recorder) (w : Sys)
    (h : TableOK r w) :
    TableOK (r.StartRecording tf now id w).2.1 (r.StartRecording tf now id w).2.2 := by
  rcases hres : r.StartRecording tf now id w with ⟨res, r1, w1⟩
  cases res with
  | error e =>
    have hfr := (StartRecording_error_again tf now now id r w e (by rw [hres])).1
    rw [hres] at hfr
    simp only [Prod.mk.injEq] at hfr
    obtain ⟨hr, hw⟩ := hfr
    subst hr hw
    exact h
  | ok recorder =>
    obtain ⟨_, hrec, hr1, hat⟩ := StartRecording_ok tf now id r r1 w w1 recorder hres
    obtain ⟨h1, h2, h3, h4⟩ := h
    have hfile : recorder.file = w.fs.fds.length := by rw [hrec]
    have hlt : w.fs.fds.length < w1.fs.fds.length := by
      have hsome := hat.1
      rw [hfile] at hsome
      rcases Nat.lt_or_ge w.fs.fds.length w1.fs.fds.length with hlt | hge
      · exact hlt
      · rw [List.getElem?_eq_none hge] at hsome
        cases hsome
    have hsub : (r.sessions.filter (fun kv => !(kv.1 == id))).Sublist r.sessions :=
      List.filter_sublist _
    subst hr1
    simp only [setKey]
    refine ⟨?_, ?_, ?_, ?_⟩
    · simp only [List.map_cons, List.nodup_cons]
      refine ⟨?_, h1.sublist (hsub.map _)⟩
      intro hmem
      obtain ⟨kv, hkv, hk⟩ := List.mem_map.mp hmem
      have := (List.mem_filter.mp hkv).2
      simp [hk] at this
    · intro kv hkv
      rcases List.mem_cons.mp hkv with heq | hmem
      · subst heq
        rw [hrec]
      · exact h2 kv (hsub.subset hmem)
    · intro kv hkv
      rcases List.mem_cons.mp hkv with heq | hmem
      · subst heq
        simp only
        rw [hfile]
        exact hlt
      · exact lt_trans (h3 kv (hsub.subset hmem)) hlt
    · simp only [List.map_cons, List.nodup_cons]
      refine ⟨?_, h4.sublist (hsub.map _)⟩
      intro hmem
      obtain ⟨kv, hkv, hk⟩ := List.mem_map.mp hmem
      have hlt2 := h3 kv (hsub.subset hkv)
      rw [hk, hfile] at hlt2
      exact lt_irrefl _ hlt2

theorem TableOK_stop (tf : TimeFormat) (now since : Time) (id : String) (r : Recorder)
    (w : Sys) (h : TableOK r w) :
    TableOK (r.StopRecording tf now since id w).2.1 (r.StopRecording tf now since id w).2.2 := by
  cases hl : r.sessions.lookup id with
  | none =>
    have : r.StopRecording tf now since id w
        = (some ("session not being recorded: " ++ id), r, w) := by
      simp only [Recorder.StopRecording, hl]
    rw [this]
    exact h
  | some recorder =>
    have hlen : (r.StopRecording tf now since id w).2.2.fs.fds.length = w.fs.fds.length := by
      rw [StopRecording_fs tf now since id r w recorder hl, fsClose_fds_length]
      unfold FS.WriteString
      rw [fsWrite_fds_length]
    rw [(StopRecording_present tf now since id r w recorder hl).2]
    exact TableOK_filter r w _ id h (le_of_eq hlen.symm)

theorem TableOK_run (tf : TimeFormat) (op : Op) (st : Recorder × Sys)
    (h : TableOK st.1 st.2) : TableOK (op.run tf st).1 (op.run tf st).2 := by
  obtain ⟨r, w⟩ := st
  cases op with
  | StartRecording now id => exact TableOK_start tf now id r w h
  | StopRecording now since id => exact TableOK_stop tf now since id r w h
  | GetRecorder id => exact h
  | Write s data =>
    obtain ⟨h1, h2, h3, h4⟩ := h
    refine ⟨h1, h2, ?_, h4⟩
    intro kv hkv
    simp only [Op.run, sessionWrite_fds_length]
    exact h3 kv hkv

theorem TableOK_runOps (tf : TimeFormat) (ops : List Op) :
    ∀ st : Recorder × Sys, TableOK st.1 st.2 →
      TableOK (runOps tf ops st).1 (runOps tf ops st).2 := by
  induction ops with
  | nil => exact fun st h => h
  | cons op ops ih =>
    intro st h
    simp only [runOps, List.foldl_cons]
    exact ih (op.run tf st) (TableOK_run tf op st h)

theorem TableOK_reachable (tf : TimeFormat) (r : Recorder) (w : Sys)
    (h : Reachable tf r w) : TableOK r w := by
  obtain ⟨sp, w0, r0, w1, ops, hnew, hrun⟩ := h
  have h0 : TableOK r0 w1 := by
    simp only [NewRecorder] at hnew
    rcases hm : w0.fs.MkdirAll sp with ⟨e, fs⟩
    rw [hm] at hnew
    cases e with
    | some err => cases hnew
    | none =>
      simp only [Prod.mk.injEq, Except.ok.injEq] at hnew
      obtain ⟨hr, _⟩ := hnew
      subst hr
      exact ⟨List.nodup_nil, by simp, by simp, List.nodup_nil⟩
  have := TableOK_runOps tf ops (r0, w1) h0
  rw [hrun] at this
  exact this

/-- C15. In every state reachable from a successful `NewRecorder` by `StartRecording`,
`StopRecording`, `GetRecorder` and `Write` calls, no session id is a key of the table twice
(so the table holds at most one recording per id, the one found under it), the entry stored
under key `id` has `sessionID` equal to `id`, no recording appears under two keys, and the
recordings under two different keys are different objects, each with a file of its own. -/
theorem reachable_table_invariant (tf : TimeFormat) (r : Recorder) (w : Sys)
    (h : Reachable tf r w) :
    (r.sessions.map Prod.fst).Nodup
    ∧ (∀ kv ∈ r.sessions, r.sessions.lookup kv.1 = some kv.2)
    ∧ (∀ id recorder, r.sessions.lookup id = some recorder → recorder.sessionID = id)
    ∧ (∀ j k recorder, r.sessions.lookup j = some recorder →
        r.sessions.lookup k = some recorder → j = k)
    ∧ (∀ j k rj rk, r.sessions.lookup j = some rj → r.sessions.lookup k = some rk →
        j ≠ k → rj ≠ rk ∧ rj.file ≠ rk.file) := by
  obtain ⟨h1, h2, _, h4⟩ := TableOK_reachable tf r w h
  have hid : ∀ id recorder, r.sessions.lookup id = some recorder → recorder.sessionID = id :=
    fun id recorder hl => h2 (id, recorder) (mem_of_lookup _ _ _ hl)
  have hfile : ∀ j k rj rk, r.sessions.lookup j = some rj → r.sessions.lookup k = some rk →
      j ≠ k → rj.file ≠ rk.file := by
    intro j k rj rk hj hk hne hf
    have := List.inj_on_of_nodup_map h4 (mem_of_lookup _ _ _ hj) (mem_of_lookup _ _ _ hk) hf
    exact hne (congrArg Prod.fst this)
  refine ⟨h1, ?_, hid, ?_, ?_⟩
  · intro kv hkv
    exact lookup_of_mem_nodup _ _ _ h1 hkv
  · intro j k recorder hj hk
    rw [← hid j recorder hj, ← hid k recorder hk]
  · intro j k rj rk hj hk hne
    refine ⟨?_, hfile j k rj rk hj hk hne⟩
    intro heq
    exact hfile j k rj rk hj hk hne (congrArg SessionRecorder.file heq)

/-- C15, worked example: after `NewRecorder("rec")`, two starts of `s1`, a start of `s2`, a
write and a stop of `s1`, the table holds `s2` once. -/
theorem reachable_table_invariant_example :
    ((runOps demoFormat demoOps (demoRecorder, (NewRecorder "rec" freshSys).2)).1.sessions.map
        Prod.fst).Nodup
    ∧ (runOps demoFormat demoOps (demoRecorder, (NewRecorder "rec" freshSys).2)).1.sessions.map
        Prod.fst = ["s2"] :=
  ⟨(reachable_table_invariant demoFormat _ _
      ⟨"rec", freshSys, demoRecorder, (NewRecorder "rec" freshSys).2, demoOps, rfl, rfl⟩).1,
    by decide⟩

theorem splitSlash_ne_nil (xs : List Char) : splitSlash xs ≠ [] := by
  cases xs with
  | nil => simp [splitSlash]
  | cons c cs =>
    simp only [splitSlash]
    cases splitSlash cs with
    | nil => simp
    | cons seg segs => by_cases hc : c = '/' <;> simp [hc]

theorem splitSlash_slash (cs : List Char) : splitSlash ('/' :: cs) = [] :: splitSlash cs := by
  simp only [splitSlash]
  cases h : splitSlash cs with
  | nil => exact absurd h (splitSlash_ne_nil cs)
  | cons seg segs => simp

theorem splitSlash_other (c : Char) (cs seg : List Char) (segs : List (List Char))
    (hc : c ≠ '/') (h : splitSlash cs = seg :: segs) :
    splitSlash (c :: cs) = (c :: seg) :: segs := by
  simp only [splitSlash, h, hc, ↓reduceIte]

theorem splitSlash_append_slash (xs ys : List Char) :
    splitSlash (xs ++ '/' :: ys) = splitSlash xs ++ splitSlash ys := by
  induction xs with
  | nil =>
    rw [List.nil_append, splitSlash_slash]
    rfl
  | cons c cs ih =>
    rw [List.cons_append]
    by_cases hc : c = '/'
    · subst hc
      rw [splitSlash_slash, splitSlash_slash, ih]
      rfl
    · cases h : splitSlash cs with
      | nil => exact absurd h (splitSlash_ne_nil cs)
      | cons seg segs =>
        rw [splitSlash_other c cs seg segs hc h,
          splitSlash_other c (cs ++ '/' :: ys) seg (segs ++ splitSlash ys) hc
            (by rw [ih, h]; rfl)]
        rfl

theorem splitSlash_of_no_slash (ys : List Char) (h : '/' ∉ ys) : splitSlash ys = [ys] := by
  induction ys with
  | nil => rfl
  | cons c cs ih =>
    have hc : c ≠ '/' := fun hc => h (hc ▸ List.mem_cons_self _ _)
    have hcs : '/' ∉ cs := fun hm => h (List.mem_cons_of_mem _ hm)
    exact splitSlash_other c cs cs [] hc (ih hcs)

theorem splitSlash_no_slash (xs : List Char) : ∀ seg ∈ splitSlash xs, '/' ∉ seg := by
  induction xs with
  | nil => simp [splitSlash]
  | cons c cs ih =>
    by_cases hc : c = '/'
    · subst hc
      rw [splitSlash_slash]
      intro s hs
      rcases List.mem_cons.mp hs with rfl | hs
      · simp
      · exact ih s hs
    · cases h : splitSlash cs with
      | nil => exact absurd h (splitSlash_ne_nil cs)
      | cons seg segs =>
        rw [h] at ih
        rw [splitSlash_other c cs seg segs hc h]
        intro s hs
        rcases List.mem_cons.mp hs with rfl | hs
        · intro hm
          rcases List.mem_cons.mp hm with h1 | h1
          · exact hc h1.symm
          · exact ih seg (List.mem_cons_self _ _) h1
        · exact ih s (List.mem_cons_of_mem _ hs)

theorem cleanStep_kept (rooted : Bool) (stack : List (List Char)) (seg : List Char)
    (hs : KeptOK stack) (hseg : '/' ∉ seg) : KeptOK (cleanStep rooted stack seg) := by
  unfold cleanStep
  by_cases h1 : seg = [] ∨ seg = ['.']
  · rw [if_pos h1]
    exact hs
  · rw [if_neg h1]
    have hnew : seg ≠ [] ∧ seg ≠ ['.'] ∧ '/' ∉ seg :=
      ⟨fun h => h1 (Or.inl h), fun h => h1 (Or.inr h), hseg⟩
    have hpush : KeptOK (seg :: stack) := by
      intro s hm
      rcases List.mem_cons.mp hm with rfl | hm
      · exact hnew
      · exact hs s hm
    by_cases h2 : seg = ['.', '.']
    · rw [if_pos h2]
      cases stack with
      | nil =>
        simp only
        split
        · intro s hm
          cases hm
        · intro s hm
          rcases List.mem_cons.mp hm with rfl | hm
          · exact hnew
          · cases hm
      | cons top below =>
        simp only
        split
        · exact hpush
        · intro s hm
          exact hs s (List.mem_cons_of_mem _ hm)
    · rw [if_neg h2]
      exact hpush

theorem foldl_cleanStep_kept (rooted : Bool) (segs : List (List Char)) :
    ∀ stack, KeptOK stack → (∀ seg ∈ segs, '/' ∉ seg) →
      KeptOK (segs.foldl (cleanStep rooted) stack) := by
  induction segs with
  | nil => exact fun stack hs _ => hs
  | cons seg segs ih =>
    intro stack hs hsegs
    simp only [List.foldl_cons]
    apply ih
    · exact cleanStep_kept rooted stack seg hs (hsegs seg (List.mem_cons_self _ _))
    · exact fun s hm => hsegs s (List.mem_cons_of_mem _ hm)

theorem intercalate_snoc (S : List (List Char)) (n : List Char) (hS : S ≠ []) :
    List.intercalate ['/'] (S ++ [n]) = List.intercalate ['/'] S ++ '/' :: n := by
  induction S with
  | nil => exact absurd rfl hS
  | cons x xs ih =>
    cases xs with
    | nil => simp [List.intercalate, List.intersperse]
    | cons y ys =>
      have := ih (by simp)
      simp only [List.intercalate, List.cons_append, List.intersperse, List.flatten_cons,
        List.append_assoc, List.nil_append, List.append_eq] at this ⊢
      rw [this]

theorem intercalate_kept (S : List (List Char)) (hS : S ≠ []) (hk : KeptOK S) :
    List.intercalate ['/'] S ≠ [] ∧ List.intercalate ['/'] S ≠ ['.']
      ∧ List.intercalate ['/'] S ≠ ['/'] := by
  cases S with
  | nil => exact absurd rfl hS
  | cons x xs =>
    obtain ⟨hx1, hx2, hx3⟩ := hk x (List.mem_cons_self _ _)
    cases x with
    | nil => exact absurd rfl hx1
    | cons c cs =>
      have hc : c ≠ '/' := fun h => hx3 (h ▸ List.mem_cons_self _ _)
      cases xs with
      | nil =>
        simp only [List.intercalate, List.intersperse, List.flatten_cons, List.flatten_nil,
          List.append_nil]
        refine ⟨by simp, hx2, ?_⟩
        intro h
        exact hc (List.cons.inj h).1
      | cons y ys =>
        simp only [List.intercalate, List.intersperse, List.flatten_cons, List.cons_append]
        refine ⟨by simp, ?_, ?_⟩
        · intro h
          have := congrArg List.length h
          simp at this
        · intro h
          exact hc (List.cons.inj h).1

theorem Clean_data (p : String) :
    (Clean p).data =
      if (p.data.head? == some '/') = true then
        '/' :: List.intercalate ['/']
          ((splitSlash p.data).foldl (cleanStep true) []).reverse
      else if List.intercalate ['/']
          ((splitSlash p.data).foldl (cleanStep false) []).reverse = [] then ['.']
      else List.intercalate ['/'] ((splitSlash p.data).foldl (cleanStep false) []).reverse := by
  unfold Clean
  cases hr : (p.data.head? == some '/') with
  | true =>
    simp only [↓reduceIte, String.data_append]
    rfl
  | false =>
    simp only [Bool.false_eq_true, ↓reduceIte]
    by_cases hb : List.intercalate ['/']
        ((splitSlash p.data).foldl (cleanStep false) []).reverse = []
    · have : String.mk (List.intercalate ['/']
          ((splitSlash p.data).foldl (cleanStep false) []).reverse) = "" := by
        rw [hb]
      rw [if_pos this, if_pos hb]
    · have : String.mk (List.intercalate ['/']
          ((splitSlash p.data).foldl (cleanStep false) []).reverse) ≠ "" := by
        intro h
        exact hb (congrArg String.data h)
      rw [if_neg this, if_neg hb]

theorem inDir_data (d f : String) :
    (inDir d f).data =
      if d.data = ['.'] then f.data
      else if d.data = ['/'] then '/' :: f.data else d.data ++ '/' :: f.data := by
  unfold inDir
  by_cases h1 : d = "."
  · subst h1
    simp
  · have h1d : d.data ≠ ['.'] := fun h => h1 (String.ext h)
    rw [if_neg h1, if_neg h1d]
    by_cases h2 : d = "/"
    · subst h2
      simp
    · have h2d : d.data ≠ ['/'] := fun h => h2 (String.ext h)
      rw [if_neg h2, if_neg h2d]
      simp [String.data_append]

theorem cleanStep_name (rooted : Bool) (stack : List (List Char)) (n : List Char)
    (h4 : 4 ≤ n.length) : cleanStep rooted stack n = n :: stack := by
  unfold cleanStep
  have h1 : ¬ (n = [] ∨ n = ['.']) := by
    rintro (h | h) <;> rw [h] at h4 <;> simp at h4
  have h2 : n ≠ ['.', '.'] := by
    intro h
    rw [h] at h4
    simp at h4
  rw [if_neg h1, if_neg h2]

/-- The cleaned form of `dir/name` for a name of at least four characters without `/`, in
terms of the cleaned form of `dir`. -/
theorem Clean_dir_name (sp : List Char) (n : List Char) (hsp : sp ≠ []) (h4 : 4 ≤ n.length)
    (hn : '/' ∉ n) :
    (Clean (String.mk (sp ++ '/' :: n))).data =
      if (Clean (String.mk sp)).data = ['.'] then n
      else if (Clean (String.mk sp)).data = ['/'] then '/' :: n
      else (Clean (String.mk sp)).data ++ '/' :: n := by
  rw [Clean_data, Clean_data]
  have hhead : (sp ++ '/' :: n).head? = sp.head? := by
    cases sp with
    | nil => exact absurd rfl hsp
    | cons c cs => rfl
  simp only [hhead]
  have hfold : ∀ rooted, ((splitSlash (sp ++ '/' :: n)).foldl (cleanStep rooted) []).reverse
      = ((splitSlash sp).foldl (cleanStep rooted) []).reverse ++ [n] := by
    intro rooted
    rw [splitSlash_append_slash, splitSlash_of_no_slash n hn, List.foldl_append]
    simp only [List.foldl_cons, List.foldl_nil, cleanStep_name rooted _ n h4,
      List.reverse_cons]
  have hkept : ∀ rooted, KeptOK ((splitSlash sp).foldl (cleanStep rooted) []).reverse := by
    intro rooted s hs
    exact foldl_cleanStep_kept rooted (splitSlash sp) [] (fun _ h => by cases h)
      (splitSlash_no_slash sp) s (List.mem_reverse.mp hs)
  have hn0 : n ≠ [] := by
    intro h
    rw [h] at h4
    simp at h4
  cases hr : (sp.head? == some '/') with
  | true =>
    simp only [↓reduceIte, hfold true]
    have hne1 : ('/' :: List.intercalate ['/']
        ((splitSlash sp).foldl (cleanStep true) []).reverse) ≠ ['.'] := by
      intro h
      have := (List.cons.inj h).1
      exact absurd this (by decide)
    rw [if_neg hne1]
    by_cases hS : ((splitSlash sp).foldl (cleanStep true) []).reverse = []
    · rw [hS]
      simp [List.intercalate, List.intersperse]
    · obtain ⟨k1, _, _⟩ := intercalate_kept _ hS (hkept true)
      rw [intercalate_snoc _ n hS]
      have : ('/' :: List.intercalate ['/']
          ((splitSlash sp).foldl (cleanStep true) []).reverse) ≠ ['/'] := by
        intro h
        exact k1 (List.cons.inj h).2
      rw [if_neg this]
      rfl
  | false =>
    simp only [Bool.false_eq_true, ↓reduceIte, hfold false]
    by_cases hS : ((splitSlash sp).foldl (cleanStep false) []).reverse = []
    · rw [hS]
      simp [List.intercalate, List.intersperse, hn0]
    · obtain ⟨k1, k2, k3⟩ := intercalate_kept _ hS (hkept false)
      rw [intercalate_snoc _ n hS]
      have hne : List.intercalate ['/'] ((splitSlash sp).foldl (cleanStep false) []).reverse
          ++ '/' :: n ≠ [] := by simp
      rw [if_neg hne, if_neg k1, if_neg k2, if_neg k3]

theorem Clean_name (n : List Char) (h4 : 4 ≤ n.length) (hn : '/' ∉ n) :
    (Clean (String.mk n)).data = n := by
  rw [Clean_data]
  have hn0 : n ≠ [] := by
    intro h
    rw [h] at h4
    simp at h4
  have hhead : (n.head? == some '/') = false := by
    cases n with
    | nil => exact absurd rfl hn0
    | cons c cs =>
      have hc : c ≠ '/' := fun h => hn (h ▸ List.mem_cons_self _ _)
      simpa using hc
  simp only [hhead, Bool.false_eq_true, ↓reduceIte, splitSlash_of_no_slash n hn,
    List.foldl_cons, List.foldl_nil, cleanStep_name false _ n h4]
  simp [List.intercalate, List.intersperse, hn0]

theorem Clean_empty : Clean "" = "." := by decide

/-- For a session id without `/`, the recording path is the file `id.txt` directly inside the
cleaned storage directory. -/
theorem GetRecordingPath_plain (r : Recorder) (id : String) (h : plainID id) :
    r.GetRecordingPath id = inDir (Clean r.storagePath) (id ++ ".txt") := by
  have hdata : (id ++ ".txt").data = id.data ++ ['.', 't', 'x', 't'] := by
    simp [String.data_append]
  have h4 : 4 ≤ (id.data ++ ['.', 't', 'x', 't']).length := by simp
  have hn : '/' ∉ id.data ++ ['.', 't', 'x', 't'] := by
    intro hm
    rcases List.mem_append.mp hm with h1 | h1
    · exact h h1
    · revert h1
      decide
  have hne : id ++ ".txt" ≠ "" := by
    intro h0
    have := congrArg String.data h0
    rw [hdata] at this
    simp at this
  apply String.ext
  rw [inDir_data]
  unfold Recorder.GetRecordingPath
  by_cases hsp : r.storagePath = ""
  · have hj : Join [r.storagePath, id ++ ".txt"] = Clean (id ++ ".txt") := by
      simp [Join, hsp, hne, String.intercalate, String.intercalate.go]
    rw [hj, hsp, Clean_empty]
    simp only [↓reduceIte]
    have : id ++ ".txt" = String.mk (id.data ++ ['.', 't', 'x', 't']) := String.ext hdata
    rw [this, Clean_name _ h4 hn]
  · have hj : Join [r.storagePath, id ++ ".txt"]
        = Clean (String.mk (r.storagePath.data ++ '/' :: (id.data ++ ['.', 't', 'x', 't']))) := by
      simp only [Join, hsp, ↓reduceIte, String.intercalate, String.intercalate.go]
      congr 1
      apply String.ext
      simp [String.data_append]
    have hspd : r.storagePath.data ≠ [] := fun h0 => hsp (String.ext h0)
    rw [hj, Clean_dir_name _ _ hspd h4 hn, hdata]

theorem inDir_injective (d a b : String) (h : inDir d a = inDir d b) : a = b := by
  have hd := congrArg String.data h
  rw [inDir_data, inDir_data] at hd
  apply String.ext
  by_cases h1 : d.data = ['.']
  · simpa [h1] using hd
  · by_cases h2 : d.data = ['/']
    · simpa [h1, h2] using hd
    · simpa [h1, h2] using hd

theorem txt_injective (a b : String) (h : a ++ ".txt" = b ++ ".txt") : a = b := by
  have hd := congrArg String.data h
  simp only [String.data_append] at hd
  exact String.ext (List.append_cancel_right hd)

theorem GetRecordingPath_injective (r : Recorder) (a b : String) (ha : plainID a)
    (hb : plainID b) (h : r.GetRecordingPath a = r.GetRecordingPath b) : a = b := by
  rw [GetRecordingPath_plain r a ha, GetRecordingPath_plain r b hb] at h
  exact txt_injective a b (inDir_injective _ _ _ h)

theorem fsWrite_files_ne (fs : FS) (file : Nat) (b : List Byte) (p : String)
    (hp : ∀ g, fs.fds[file]? = some g → g.path ≠ p) :
    (fs.Write file b).2.files.lookup p = fs.files.lookup p := by
  unfold FS.Write
  cases hg : fs.fds[file]? with
  | none => rfl
  | some g =>
    simp only
    by_cases hc : g.closed = true
    · rw [if_pos hc]
    · rw [if_neg hc]
      exact lookup_setKey_ne _ _ _ _ (Ne.symm (hp g hg))

theorem fsWrite_fds_ne (fs : FS) (file : Nat) (b : List Byte) (k : Nat) (hk : k ≠ file) :
    (fs.Write file b).2.fds[k]? = fs.fds[k]? := by
  unfold FS.Write
  cases hg : fs.fds[file]? with
  | none => rfl
  | some g =>
    simp only
    by_cases hc : g.closed = true
    · rw [if_pos hc]
    · rw [if_neg hc]
      simp only
      rw [List.getElem?_set_ne (Ne.symm hk)]

theorem fsCreate_frame (fs fs2 : FS) (name : String) (file : Nat)
    (h : fs.Create name = (.ok file, fs2)) :
    (∀ p, p ≠ name → fs2.files.lookup p = fs.files.lookup p)
      ∧ ∀ k, k < fs.fds.length → fs2.fds[k]? = fs.fds[k]? := by
  unfold FS.Create at h
  split at h
  · cases h
  · split at h
    · cases h
    · cases h
      refine ⟨fun p hp => lookup_setKey_ne _ _ _ _ hp, ?_⟩
      intro k hk
      simp only
      rw [List.getElem?_append_left hk]

/-- `StartRecording(b)` changes no file other than the one at the recording path of `b`, no
open file that existed before, and no table entry other than that of `b`. -/
theorem StartRecording_frame (tf : TimeFormat) (now : Time) (b : String) (r : Recorder)
    (w : Sys) :
    (∀ p, p ≠ r.GetRecordingPath b →
      (r.StartRecording tf now b w).2.2.fs.files.lookup p = w.fs.files.lookup p)
    ∧ (∀ k, k < w.fs.fds.length →
      (r.StartRecording tf now b w).2.2.fs.fds[k]? = w.fs.fds[k]?)
    ∧ (∀ a, a ≠ b →
      (r.StartRecording tf now b w).2.1.sessions.lookup a = r.sessions.lookup a) := by
  rcases hres : r.StartRecording tf now b w with ⟨res, r1, w1⟩
  cases res with
  | error e =>
    have hfr := (StartRecording_error_again tf now now b r w e (by rw [hres])).1
    rw [hres] at hfr
    simp only [Prod.mk.injEq] at hfr
    obtain ⟨hr, hw⟩ := hfr
    subst hr hw
    exact ⟨fun _ _ => rfl, fun _ _ => rfl, fun _ _ => rfl⟩
  | ok recorder =>
    obtain ⟨hnone, hrec, hr1, _⟩ := StartRecording_ok tf now b r r1 w w1 recorder hres
    unfold Recorder.StartRecording at hres
    rw [hnone] at hres
    simp only at hres
    rcases hc : w.fs.Create (r.GetRecordingPath b) with ⟨cres, fs1⟩
    rw [hc] at hres
    cases cres with
    | error e => cases hres
    | ok file =>
      simp only [Prod.mk.injEq, Except.ok.injEq] at hres
      obtain ⟨_, _, hw1⟩ := hres
      obtain ⟨hfile, hat, _⟩ := fsCreate_atEnd w.fs fs1 _ file hc
      obtain ⟨cf1, cf2⟩ := fsCreate_frame w.fs fs1 _ file hc
      have hw1fs : w1.fs = (fs1.WriteString file (headerOf tf b now)).2 := by
        rw [← hw1]
        rfl
      refine ⟨?_, ?_, ?_⟩
      · intro p hp
        simp only
        rw [hw1fs, FS.WriteString, fsWrite_files_ne fs1 file _ p ?_, cf1 p hp]
        intro g hg
        rw [hat.1] at hg
        cases hg
        exact Ne.symm hp
      · intro k hk
        simp only
        rw [hw1fs, FS.WriteString, fsWrite_fds_ne fs1 file _ k (by omega), cf2 k hk]
      · intro a hab
        simp only
        rw [hr1]
        exact lookup_setKey_ne _ _ _ _ hab

set_option maxRecDepth 8000 in
/-- C20, as stated, fails: the distinct ids `x` and `./x` have the same recording path, so
starting `./x` while `x` is active truncates the artifact of `x` and writes the other header
into it; and the path of the id `../x` lies outside the storage directory `rec`. -/
theorem distinct_ids_share_a_path :
    "x" ≠ "./x"
    ∧ demoRecorder.GetRecordingPath "x" = "rec/x.txt"
    ∧ demoRecorder.GetRecordingPath "./x" = "rec/x.txt"
    ∧ demoRecorder.GetRecordingPath "../x" = "x.txt"
    ∧ artifact demoRecorder
        (runOps demoFormat [.StartRecording 5 "x", .Write ⟨"x", 0, 5⟩ [0x68, 0x69]]
          (demoRecorder, demoSys)).2 "x"
      = some (bytesOf (headerOf demoFormat "x" 5) ++ [0x68, 0x69])
    ∧ artifact demoRecorder
        (runOps demoFormat
          [.StartRecording 5 "x", .Write ⟨"x", 0, 5⟩ [0x68, 0x69], .StartRecording 6 "./x"]
          (demoRecorder, demoSys)).2 "x"
      = some (bytesOf (headerOf demoFormat "./x" 6)) := by
  refine ⟨by decide, by decide, by decide, by decide, ?_, ?_⟩
  · rfl
  · rfl

/-- C20, amended. For all distinct session ids `a` and `b`, `StartRecording(b)` leaves the
table entry of `a` unchanged, and changes no file other than the one at the recording path of
`b` and no file that was already open. When `a` and `b` contain no `/`, their recording paths
are the files `a.txt` and `b.txt` directly inside the cleaned storage directory and are
distinct, so `StartRecording(b)` neither truncates nor writes to the artifact of `a`. -/
theorem start_leaves_other_sessions (tf : TimeFormat) (now : Time) (a b : String)
    (r : Recorder) (w : Sys) (hab : a ≠ b) :
    (r.StartRecording tf now b w).2.1.sessions.lookup a = r.sessions.lookup a
    ∧ (∀ p, p ≠ r.GetRecordingPath b →
        (r.StartRecording tf now b w).2.2.fs.files.lookup p = w.fs.files.lookup p)
    ∧ (∀ k, k < w.fs.fds.length →
        (r.StartRecording tf now b w).2.2.fs.fds[k]? = w.fs.fds[k]?)
    ∧ (plainID a → plainID b →
        r.GetRecordingPath a = inDir (Clean r.storagePath) (a ++ ".txt")
        ∧ r.GetRecordingPath b = inDir (Clean r.storagePath) (b ++ ".txt")
        ∧ r.GetRecordingPath a ≠ r.GetRecordingPath b
        ∧ artifact r (r.StartRecording tf now b w).2.2 a = artifact r w a) := by
  obtain ⟨f1, f2, f3⟩ := StartRecording_frame tf now b r w
  refine ⟨f3 a hab, f1, f2, ?_⟩
  intro ha hb
  have hne : r.GetRecordingPath a ≠ r.GetRecordingPath b :=
    fun h => hab (GetRecordingPath_injective r a b ha hb h)
  exact ⟨GetRecordingPath_plain r a ha, GetRecordingPath_plain r b hb, hne, f1 _ hne⟩

set_option maxRecDepth 8000 in
/-- C20, worked example: with `s1` active under `rec`, starting `s2` leaves the artifact of
`s1`, its header, as it is. -/
theorem start_leaves_other_sessions_example :
    "s1" ≠ "s2"
    ∧ artifact demoRecorder
        ((demoRecorder.StartRecording demoFormat 5 "s1" demoSys).2.1.StartRecording demoFormat
          6 "s2" (demoRecorder.StartRecording demoFormat 5 "s1" demoSys).2.2).2.2 "s1"
      = some (bytesOf (headerOf demoFormat "s1" 5)) :=
  have h := (start_leaves_other_sessions demoFormat 6 "s1" "s2"
    (demoRecorder.StartRecording demoFormat 5 "s1" demoSys).2.1
    (demoRecorder.StartRecording demoFormat 5 "s1" demoSys).2.2 (by decide)).2.2.2
    (by unfold plainID; decide) (by unfold plainID; decide)
  ⟨by decide, h.2.2.2.trans rfl⟩

end Recording

end OrionBelt
